import Mathlib

/-!
Shallow embedding of the honmoku_stats ingestion/query code
(src/utils/numbers.py, src/utils/ddb_keys.py, src/fetcher.py, src/app.py).

Python strings are modelled as `List Char`; Python `None`-able dynamic
values as the inductive `PyVal`; the DynamoDB tables and the S3 bucket as
maps from keys to stored records.  Fallible Python code (exceptions) is
modelled with `Except`.
-/

/-- Model of a Python `str`: a list of characters. -/
abbrev Str := List Char

/-- The ASCII whitespace characters stripped by Python `str.strip()`
(space, tab, newline, carriage return, vertical tab, form feed;
non-ASCII unicode whitespace is not modelled). -/
def isPySpace (c : Char) : Bool :=
  c = ' ' || c = '\t' || c = '\n' || c = '\r' || c = Char.ofNat 11 || c = Char.ofNat 12

/-- Model of Python `str.strip()`: drop whitespace from both ends. -/
def pyStrip (s : Str) : Str :=
  ((s.dropWhile isPySpace).reverse.dropWhile isPySpace).reverse

/-- Model of Python `s.replace("\n", " ")` (single-character needle, so a
character-wise map). -/
def replNL (s : Str) : Str :=
  s.map (fun c => if c = '\n' then ' ' else c)

/-- Model of Python `s.split("#")` (split on every occurrence of `'#'`;
always returns at least one piece). -/
def splitSharp : Str → List Str
  | [] => [[]]
  | c :: rest =>
    if c = '#' then [] :: splitSharp rest
    else
      match splitSharp rest with
      | h :: t => (c :: h) :: t
      | [] => [[c]]

/-- Model of Python `" ".join(l)`. -/
def joinSpace : List Str → Str
  | [] => []
  | [s] => s
  | s :: rest => s ++ ' ' :: joinSpace rest

/-- Lexicographic (byte-order) `≤` on strings, as DynamoDB compares sort
keys and Python compares `str` values. -/
def strLe : Str → Str → Bool
  | [], _ => true
  | _ :: _, [] => false
  | a :: as_, b :: bs =>
    if a < b then true
    else if a = b then strLe as_ bs
    else false

/-- Lexicographic (byte-order) `<` on strings. -/
def strLt : Str → Str → Bool
  | [], [] => false
  | [], _ :: _ => true
  | _ :: _, [] => false
  | a :: as_, b :: bs =>
    if a < b then true
    else if a = b then strLt as_ bs
    else false

/-! ## Python dynamic values and `float` semantics -/

/-- A Python float value: either an exact finite value, modelled as the
scaled decimal `num / 10 ^ scale` (every IEEE-754 double is a dyadic
rational and hence has such a form; the rounding of decimal literals to
doubles is not modelled, which is irrelevant to the integer-truncation
results proved here), or one of the non-finite values. -/
inductive PyFloat where
  | finite (num : Int) (scale : Nat)
  | inf
  | ninf
  | nan
deriving DecidableEq

/-- A Python dynamic value as it occurs in the upstream JSON payloads:
`None`, `int`, `float`, `str`, `list`, or anything else. -/
inductive PyVal where
  | none
  | int (n : Int)
  | float (f : PyFloat)
  | str (s : Str)
  | list (l : List PyVal)
  | other

/-- Python exceptions raised by the numeric conversion. -/
inductive PyExn where
  | overflowError
  | valueError
deriving DecidableEq

/-- Truncation toward zero of the scaled decimal `n / 10 ^ scale`, the
semantics of Python `int(...)` applied to a finite float. -/
def decTrunc (n : Int) (scale : Nat) : Int :=
  if 0 ≤ n then Int.ofNat (n.toNat / 10 ^ scale)
  else - Int.ofNat ((- n).toNat / 10 ^ scale)

/-- Digit value of an ASCII digit character. -/
def digitVal (c : Char) : Nat := c.toNat - 48

/-- Is `c` an ASCII digit? -/
def isDigitCh (c : Char) : Bool := 48 ≤ c.toNat && c.toNat ≤ 57

/-- Numeric value of a digit string (most significant first). -/
def digitsVal (ds : Str) : Nat :=
  ds.foldl (fun acc c => acc * 10 + digitVal c) 0

/-- Split a string at the first occurrence of `c`; `none` if `c` does not
occur. -/
def splitAtCh (c : Char) : Str → Option (Str × Str)
  | [] => Option.none
  | d :: rest =>
    if d = c then Option.some ([], rest)
    else match splitAtCh c rest with
      | Option.some (l, r) => Option.some (d :: l, r)
      | Option.none => Option.none

/-- Parse an optional sign; returns (isNegative, rest). -/
def parseSign : Str → Bool × Str
  | '-' :: rest => (true, rest)
  | '+' :: rest => (false, rest)
  | s => (false, s)

/-- Parse the exponent part of a float literal (after `e`): an optional
sign followed by at least one digit. -/
def parseExp (s : Str) : Option Int :=
  let (neg, ds) := parseSign s
  if ds ≠ [] && ds.all isDigitCh then
    Option.some (if neg then - Int.ofNat (digitsVal ds) else Int.ofNat (digitsVal ds))
  else Option.none

/-- Parse the mantissa of a decimal float literal: digits with an optional
decimal point, at least one digit overall.  Returns the value as a pair
(mantissa, scale), meaning `mantissa / 10 ^ scale`. -/
def parseMantissa (s : Str) : Option (Nat × Nat) :=
  match splitAtCh '.' s with
  | Option.none =>
    if s ≠ [] && s.all isDigitCh then Option.some (digitsVal s, 0) else Option.none
  | Option.some (ip, fp) =>
    if (ip ≠ [] || fp ≠ []) && ip.all isDigitCh && fp.all isDigitCh then
      Option.some (digitsVal ip * 10 ^ fp.length + digitsVal fp, fp.length)
    else Option.none

/-- Build a finite `PyFloat` from sign, mantissa, scale and decimal
exponent: the exact value `± mant / 10 ^ scale * 10 ^ ex`. -/
def mkFinite (neg : Bool) (mant : Nat) (scale : Nat) (ex : Int) : PyFloat :=
  let sc : Int := (scale : Int) - ex
  let sn : Int := if neg then - Int.ofNat mant else Int.ofNat mant
  if sc ≤ 0 then PyFloat.finite (sn * (10 : Int) ^ (- sc).toNat) 0
  else PyFloat.finite sn sc.toNat

/-- Model of CPython `float(s)` on an already-stripped string: an optional
sign followed by `inf`/`infinity`/`nan` (case-insensitive) or a decimal
literal with optional fraction and exponent.  Digit-group underscores and
overflow of huge exponents to infinity are not modelled.  Returns `none`
where Python raises `ValueError`. -/
def parseFloat (s : Str) : Option PyFloat :=
  let (neg, body) := parseSign s
  let low := body.map Char.toLower
  if low = ("inf").data || low = ("infinity").data then
    Option.some (if neg then PyFloat.ninf else PyFloat.inf)
  else if low = ("nan").data then
    Option.some PyFloat.nan
  else
    match splitAtCh 'e' low with
    | Option.none =>
      (parseMantissa low).map (fun ms => mkFinite neg ms.1 ms.2 0)
    | Option.some (m, e) =>
      match parseMantissa m, parseExp e with
      | Option.some ms, Option.some ex => Option.some (mkFinite neg ms.1 ms.2 ex)
      | _, _ => Option.none

/-- Python `int(f)` for a float `f`: truncation toward zero for finite
values; `OverflowError` for infinities, `ValueError` for NaN. -/
def intOfFloat (f : PyFloat) : Except PyExn Int :=
  match f with
  | PyFloat.finite n scale => Except.ok (decTrunc n scale)
  | PyFloat.inf => Except.error PyExn.overflowError
  | PyFloat.ninf => Except.error PyExn.overflowError
  | PyFloat.nan => Except.error PyExn.valueError

/-- Embedding of `safe_int` (src/utils/numbers.py).  `None` passes to
`None`; `int` passes through; `float` goes through `int(v)` (which raises
on non-finite values, uncaught); a string is stripped, the empty string
gives `None`, otherwise `int(float(s))` is evaluated inside
`try/except ValueError` — so an unparsable string or a NaN-parsing string
gives `None`, while a string parsing to an infinity raises the uncaught
`OverflowError`; any other value gives `None`. -/
def safe_int (v : PyVal) : Except PyExn (Option Int) :=
  match v with
  | PyVal.none => Except.ok Option.none
  | PyVal.int n => Except.ok (Option.some n)
  | PyVal.float f => (intOfFloat f).map Option.some
  | PyVal.str s =>
    let t := pyStrip s
    if t = [] then Except.ok Option.none
    else
      match parseFloat t with
      | Option.none => Except.ok Option.none
      | Option.some f =>
        match intOfFloat f with
        | Except.ok n => Except.ok (Option.some n)
        | Except.error PyExn.valueError => Except.ok Option.none
        | Except.error e => Except.error e
  | PyVal.list _ => Except.ok Option.none
  | PyVal.other => Except.ok Option.none

/-! ## Key codec (src/utils/ddb_keys.py) -/

/-- The `place` argument of `make_catch_sk`, typed as in the source:
`Optional[Union[str, List[str]]]`. -/
abbrev PlaceTy := Option (Str ⊕ List Str)

/-- `make_daily_pk`. -/
def make_daily_pk (facility : Str) : Str := ("FACILITY#").data ++ facility

/-- `make_daily_sk`. -/
def make_daily_sk (date : Str) : Str := ("DATE#").data ++ date

/-- `make_catch_pk`. -/
def make_catch_pk (facility fish : Str) : Str :=
  ("FACILITY#").data ++ facility ++ ("#FISH#").data ++ fish

/-- Python `str(n)` for an integer. -/
def intRepr (n : Int) : Str :=
  if n < 0 then '-' :: Nat.toDigits 10 (- n).toNat else Nat.toDigits 10 n.toNat

/-- Python `f"{n:02d}"`: zero-pad the decimal representation to width 2
(the zero goes between sign and digits, which for width 2 only affects
single-digit non-negative numbers). -/
def format02d (n : Int) : Str :=
  let s := intRepr n
  if s.length < 2 then '0' :: s else s

/-- The list-joining step of `make_catch_sk`
(`place = " ".join(str(p) for p in place if p) if place else None`): a
non-empty list is joined over its truthy (non-empty) elements with single
spaces; an empty list becomes `None`; a plain string or `None` passes
through. -/
def preJoin : PlaceTy → Option Str
  | Option.some (Sum.inr l) =>
    if l = [] then Option.none
    else Option.some (joinSpace (l.filter (fun p => p ≠ [])))
  | Option.some (Sum.inl s) => Option.some s
  | Option.none => Option.none

/-- The place-sanitization performed inside `make_catch_sk`: after the
list join, a falsy (`None`/empty) place is replaced by `"UNKNOWN"`; then
newlines are replaced by spaces and the result is stripped. -/
def sanitizePlace (place : PlaceTy) : Str :=
  let place2 : Str :=
    match preJoin place with
    | Option.none => ("UNKNOWN").data
    | Option.some s => if s = [] then ("UNKNOWN").data else s
  pyStrip (replNL place2)

/-- `make_catch_sk`. -/
def make_catch_sk (date : Str) (slot : Int) (place : PlaceTy) : Str :=
  ("DATE#").data ++ date ++ ("#SLOT#").data ++ format02d slot
    ++ ("#PLACE#").data ++ sanitizePlace place

-- sanity checks (concrete evaluation)
example : safe_int (PyVal.str (("12").data)) = Except.ok (Option.some 12) := rfl
example : safe_int (PyVal.str (("12.7").data)) = Except.ok (Option.some 12) := rfl
example : safe_int (PyVal.str (("-3").data)) = Except.ok (Option.some (-3)) := rfl
example : safe_int (PyVal.str (("abc").data)) = Except.ok Option.none := rfl
example : safe_int (PyVal.str (("  ").data)) = Except.ok Option.none := rfl
example : safe_int (PyVal.str (("inf").data)) = Except.error PyExn.overflowError := rfl
example : safe_int (PyVal.str (("nan").data)) = Except.ok Option.none := rfl
example : safe_int (PyVal.str (("1e3").data)) = Except.ok (Option.some 1000) := rfl
example : safe_int (PyVal.str ((" -2.9 ").data)) = Except.ok (Option.some (-2)) := rfl
example : make_catch_sk (("2024-01-01").data) 1 (Option.some (Sum.inl ((" ").data)))
    = ("DATE#2024-01-01#SLOT#01#PLACE#").data := by decide
example : make_catch_sk (("2024-01-01").data) 3 (Option.some (Sum.inr [("a").data, [], ("b\nc").data]))
    = ("DATE#2024-01-01#SLOT#03#PLACE#a b c").data := by decide
example : make_catch_sk (("2024-01-02").data) 12 Option.none
    = ("DATE#2024-01-02#SLOT#12#PLACE#UNKNOWN").data := by decide

/-! ## Upstream data model and normalizers (src/fetcher.py) -/

/-- The error taxonomy of a per-date ingestion unit. -/
inductive IngestErr where
  | noData
  | validation (missing : List Str)
  | exn (e : PyExn)
  | fetchFail (msg : Str)
deriving DecidableEq

/-- An upstream "last post" (catch-count) item as returned by the GraphQL
source.  The thirty sparse `fish{i}...` field families are modelled as
functions from the slot index; names are `Optional[str]`, the numeric-like
fields are dynamic values, places are `Optional[Union[str, List[str]]]`. -/
structure LastPost where
  id : PyVal
  sentence : PyVal
  weather : PyVal
  waterTemp : PyVal
  tide : PyVal
  visitors : PyVal
  updatedAt : Option Str
  fishName : Nat → Option Str
  fishCount : Nat → PyVal
  fishMinSize : Nat → PyVal
  fishMaxSize : Nat → PyVal
  fishUnit : Nat → PyVal
  fishPlace : Nat → PlaceTy

/-- The sort key of `pick_latest`: `x.get("updatedAt") or ""`. -/
def updKey (p : LastPost) : Str :=
  match p.updatedAt with
  | Option.some s => s
  | Option.none => []

/-- Insert `x` into `l` before the first element `y` with `le x y`
(stable insertion: an element is placed before the elements it ties
with that originally came later). -/
def insertB {α : Type} (le : α → α → Bool) (x : α) : List α → List α
  | [] => [x]
  | y :: ys => if le x y then x :: y :: ys else y :: insertB le x ys

/-- A stable sort with respect to the boolean relation `le`, modelling
Python's stable `sorted`/`list.sort`. -/
def pySorted {α : Type} (le : α → α → Bool) : List α → List α
  | [] => []
  | x :: xs => insertB le x (pySorted le xs)

/-- The descending stable sort performed by
`sorted(items, key=..., reverse=True)` in `pick_latest`. -/
def sortDescByUpd (items : List LastPost) : List LastPost :=
  pySorted (fun a b => strLe (updKey b) (updKey a)) items

/-- Embedding of `pick_latest` (src/fetcher.py): raises on an empty list,
otherwise takes the head of the descending stable sort by `updatedAt`. -/
def pick_latest (items : List LastPost) : Except IngestErr LastPost :=
  if items.isEmpty then Except.error IngestErr.noData
  else
    match sortDescByUpd items with
    | r :: _ => Except.ok r
    | [] => Except.error IngestErr.noData

/-- The membership test `item.get(k) in (None, "", [])` of the
required-field check. -/
def isMissingVal : PyVal → Bool
  | PyVal.none => true
  | PyVal.str s => s.isEmpty
  | PyVal.list l => l.isEmpty
  | _ => false

/-- The required keys of `normalize_catch_count`. -/
def requiredKeys : List Str :=
  [("weather").data, ("waterTemp").data, ("tide").data, ("visitors").data]

/-- `item.get(k)` for the required keys. -/
def reqVal (p : LastPost) (k : Str) : PyVal :=
  if k = ("weather").data then p.weather
  else if k = ("waterTemp").data then p.waterTemp
  else if k = ("tide").data then p.tide
  else if k = ("visitors").data then p.visitors
  else PyVal.none

/-- The list of missing required fields computed by
`normalize_catch_count`. -/
def requiredMissing (p : LastPost) : List Str :=
  requiredKeys.filter (fun k => isMissingVal (reqVal p k))

/-- The normalized daily summary produced by `normalize_catch_count`. -/
structure DailyItem where
  facility : Str
  date : Str
  weather : PyVal
  waterTemp : PyVal
  tide : PyVal
  visitors : Option Int
  sentence : PyVal
  sourceId : PyVal
  updatedAt : Option Str

/-- Embedding of `normalize_catch_count` (src/fetcher.py): checks the
required fields, then builds the daily summary; `visitors` goes through
`safe_int` (whose uncaught exceptions propagate). -/
def normalize_catch_count (item : LastPost) (facility dateDash : Str) :
    Except IngestErr DailyItem :=
  let missing := requiredMissing item
  if missing = [] then
    match safe_int item.visitors with
    | Except.error e => Except.error (IngestErr.exn e)
    | Except.ok vis =>
      Except.ok
        { facility := facility, date := dateDash, weather := item.weather,
          waterTemp := item.waterTemp, tide := item.tide, visitors := vis,
          sentence := item.sentence, sourceId := item.id,
          updatedAt := item.updatedAt }
  else Except.error (IngestErr.validation missing)

/-- A normalized catch record, one per populated fish slot. -/
structure CatchRec where
  facility : Str
  date : Str
  fish : Str
  count : Option Int
  minSize : Option Int
  maxSize : Option Int
  unit : PyVal
  place : PlaceTy
  slot : Int

/-- Truthiness of the `fish{i}Name` value (`if not name: continue`). -/
def nameTruthy : Option Str → Bool
  | Option.none => false
  | Option.some s => ! s.isEmpty

/-- The catch record built by `normalize_fishes` for slot `i` whose name
is the non-empty string `s`; the numeric fields already converted. -/
def mkCatchRec (item : LastPost) (facility dateDash : Str) (i : Nat) (s : Str)
    (c mn mx : Option Int) : CatchRec :=
  { facility := facility, date := dateDash, fish := s, count := c,
    minSize := mn, maxSize := mx, unit := item.fishUnit i,
    place := item.fishPlace i, slot := Int.ofNat i }

/-- The loop body of `normalize_fishes` for slot `i`: skip a slot whose
name is absent or empty; otherwise append one record, its numeric fields
going through `safe_int` (whose uncaught exceptions propagate). -/
def fishSlotStep (item : LastPost) (facility dateDash : Str)
    (acc : List CatchRec) (i : Nat) : Except PyExn (List CatchRec) :=
  match item.fishName i with
  | Option.none => Except.ok acc
  | Option.some s =>
    if s.isEmpty then Except.ok acc
    else do
      let c ← safe_int (item.fishCount i)
      let mn ← safe_int (item.fishMinSize i)
      let mx ← safe_int (item.fishMaxSize i)
      Except.ok (acc ++ [mkCatchRec item facility dateDash i s c mn mx])

/-- Embedding of `normalize_fishes` (src/fetcher.py): scan slots 1..30 in
order, skip a slot whose name is absent or empty, and append one record
per named slot; an uncaught numeric conversion exception aborts the whole
extraction. -/
def normalize_fishes (item : LastPost) (facility dateDash : Str) :
    Except PyExn (List CatchRec) :=
  (List.range' 1 30).foldlM (fishSlotStep item facility dateDash) []

/-! ## Persistence model (S3 bucket and the two DynamoDB tables as maps) -/

/-- A value persisted in DynamoDB.  DynamoDB returns every number as a
`Decimal`; `dec num scale` models the decimal `num / 10 ^ scale`.  `int`
and `float` are the Python types produced by `_convert_decimal`
(`float` again modelled exactly, as a scaled decimal). -/
inductive DVal where
  | null
  | s (v : Str)
  | int (n : Int)
  | dec (num : Int) (scale : Nat)
  | float (num : Int) (scale : Nat)
  | bool (b : Bool)
  | list (l : List DVal)
  | dict (m : List (Str × DVal))

/-- A stored record: an attribute-name/value map (Python dict). -/
abbrev Item := List (Str × DVal)

mutual

/-- Embed a Python value into a stored DynamoDB value. -/
def dvalOfPy : PyVal → DVal
  | PyVal.none => DVal.null
  | PyVal.int n => DVal.int n
  | PyVal.float (PyFloat.finite n sc) => DVal.dec n sc
  | PyVal.float _ => DVal.null
  | PyVal.str s => DVal.s s
  | PyVal.list l => DVal.list (dvalOfPyL l)
  | PyVal.other => DVal.null

/-- Embed a list of Python values. -/
def dvalOfPyL : List PyVal → List DVal
  | [] => []
  | v :: vs => dvalOfPy v :: dvalOfPyL vs

end

/-- Embed an optional integer (e.g. the `visitors` field). -/
def dvalOfOptInt : Option Int → DVal
  | Option.none => DVal.null
  | Option.some n => DVal.int n

/-- Embed an optional string. -/
def dvalOfOptStr : Option Str → DVal
  | Option.none => DVal.null
  | Option.some s => DVal.s s

/-- Embed a place value. -/
def dvalOfPlace : PlaceTy → DVal
  | Option.none => DVal.null
  | Option.some (Sum.inl s) => DVal.s s
  | Option.some (Sum.inr l) => DVal.list (l.map DVal.s)

/-- The item written by `put_ddb_daily`:
`{"PK": pk, "SK": sk, **daily_item, "rawKeys": ..., "fishingReportLog": ...}`
(the fishing-report log is always empty in the current release). -/
def dailyToItem (d : DailyItem) (rawKeys : List (Str × Str)) : Item :=
  [(("PK").data, DVal.s (make_daily_pk d.facility)),
   (("SK").data, DVal.s (make_daily_sk d.date)),
   (("facility").data, DVal.s d.facility),
   (("date").data, DVal.s d.date),
   (("weather").data, dvalOfPy d.weather),
   (("waterTemp").data, dvalOfPy d.waterTemp),
   (("tide").data, dvalOfPy d.tide),
   (("visitors").data, dvalOfOptInt d.visitors),
   (("sentence").data, dvalOfPy d.sentence),
   (("sourceId").data, dvalOfPy d.sourceId),
   (("updatedAt").data, dvalOfOptStr d.updatedAt),
   (("rawKeys").data, DVal.dict (rawKeys.map (fun kv => (kv.1, DVal.s kv.2)))),
   (("fishingReportLog").data, DVal.list [])]

/-- The item written by `put_ddb_catches` for one catch record:
`{"PK": pk, "SK": sk, **c}`. -/
def catchToItem (c : CatchRec) : Item :=
  [(("PK").data, DVal.s (make_catch_pk c.facility c.fish)),
   (("SK").data, DVal.s (make_catch_sk c.date c.slot c.place)),
   (("facility").data, DVal.s c.facility),
   (("date").data, DVal.s c.date),
   (("fish").data, DVal.s c.fish),
   (("count").data, dvalOfOptInt c.count),
   (("minSize").data, dvalOfOptInt c.minSize),
   (("maxSize").data, dvalOfOptInt c.maxSize),
   (("unit").data, dvalOfPy c.unit),
   (("place").data, dvalOfPlace c.place),
   (("slot").data, DVal.int c.slot)]

/-- Overwrite-by-key upsert into a key-value map. -/
def upsert {κ α : Type} [DecidableEq κ] (k : κ) (v : α) (m : κ → Option α) :
    κ → Option α :=
  fun q => if q = k then Option.some v else m q

/-- The three external stores: the S3 archive bucket and the two DynamoDB
tables, each modelled as a key-to-record map. -/
structure Stores where
  s3 : Str → Option DVal
  daily : Str × Str → Option Item
  catchTbl : Str × Str → Option Item

/-- Stores with nothing persisted. -/
def emptyStores : Stores :=
  { s3 := fun _ => Option.none, daily := fun _ => Option.none,
    catchTbl := fun _ => Option.none }

/-- The S3 object key `raw/{facility}/{date_dash}/{kind}.json` of
`put_raw_to_s3`. -/
def rawKeyOf (facility kind dateDash : Str) : Str :=
  ("raw/").data ++ facility ++ ['/'] ++ dateDash ++ ['/'] ++ kind ++ (".json").data

/-- Embedding of `put_ddb_daily`: a single upsert at the daily key. -/
def put_ddb_daily (d : DailyItem) (rawKeys : List (Str × Str))
    (t : Str × Str → Option Item) : Str × Str → Option Item :=
  upsert (make_daily_pk d.facility, make_daily_sk d.date) (dailyToItem d rawKeys) t

/-- Embedding of `put_ddb_catches`: one upsert per record, in list order
(the batch writer has plain overwrite-by-key semantics). -/
def put_ddb_catches (cs : List CatchRec) (t : Str × Str → Option Item) :
    Str × Str → Option Item :=
  cs.foldl
    (fun acc c =>
      upsert (make_catch_pk c.facility c.fish, make_catch_sk c.date c.slot c.place)
        (catchToItem c) acc)
    t

/-- The result of the upstream fetch collaborator for one date: the raw
payload plus the extracted items, or a terminal fetch error. -/
structure Upstream where
  raw : DVal
  items : List LastPost

/-- Outcome of `fetch_kind` for one date. -/
inductive FetchOutcome where
  | ok (u : Upstream)
  | fail (msg : Str)

/-- The per-date result dict of `process_single_date`. -/
structure DateSummary where
  date : Str
  catches : Nat

/-- Embedding of `process_single_date` (src/fetcher.py) for one date, with
the fetch outcome supplied by the external collaborator: fetch, pick the
latest candidate, archive the raw response to S3, normalize into the
daily summary and the catch records, then persist both.  Note that the
archive write happens before normalization, so a normalization failure
leaves the raw archive written. -/
def processSingleDate (facility dateDash : Str) (fo : FetchOutcome) (s : Stores) :
    Except IngestErr DateSummary × Stores :=
  match fo with
  | FetchOutcome.fail msg => (Except.error (IngestErr.fetchFail msg), s)
  | FetchOutcome.ok u =>
    match pick_latest u.items with
    | Except.error e => (Except.error e, s)
    | Except.ok item =>
      let rawKey := rawKeyOf facility (("catch_count").data) dateDash
      let s1 : Stores := { s with s3 := upsert rawKey u.raw s.s3 }
      match normalize_catch_count item facility dateDash with
      | Except.error e => (Except.error e, s1)
      | Except.ok daily =>
        match normalize_fishes item facility dateDash with
        | Except.error e => (Except.error (IngestErr.exn e), s1)
        | Except.ok catches =>
          let s2 : Stores :=
            { s1 with daily := put_ddb_daily daily [((("catch_count").data), rawKey)] s1.daily }
          let s3s : Stores := { s2 with catchTbl := put_ddb_catches catches s2.catchTbl }
          (Except.ok { date := dateDash, catches := catches.length }, s3s)

/-- The single-quote character, used by the Python `repr` of strings. -/
def quoteCh : Char := Char.ofNat 39

/-- Join with `", "`. -/
def joinCommaSp : List Str → Str
  | [] => []
  | [s] => s
  | s :: rest => s ++ ',' :: ' ' :: joinCommaSp rest

/-- Python `repr` of a list of strings, e.g. `['visitors']`
(strings assumed free of characters needing escapes). -/
def pyReprStrList (l : List Str) : Str :=
  '[' :: joinCommaSp (l.map (fun s => quoteCh :: (s ++ [quoteCh]))) ++ [']']

/-- The `str(e)` description of a per-date error, as recorded by the
orchestrator (`{"date": ..., "error": str(e)}`). -/
def errStr : IngestErr → Str
  | IngestErr.noData => ("No items returned").data
  | IngestErr.validation missing =>
    ("Missing required fields in catch count: ").data ++ pyReprStrList missing
  | IngestErr.exn PyExn.overflowError => ("cannot convert float infinity to integer").data
  | IngestErr.exn PyExn.valueError => ("cannot convert float NaN to integer").data
  | IngestErr.fetchFail msg => msg

/-- The aggregate returned by `lambda_handler`. -/
structure RunResult where
  status : Str
  processed_dates : List Str
  total_dates : Nat
  total_catches : Nat
  results : List DateSummary
  errors : Option (List (Str × Str))

/-- One iteration of the per-date loop of `lambda_handler`: process the
date against the current stores; on success append the result dict, on
failure append the `(date, error)` record and continue. -/
def dateStep (facility : Str) (fetch : Str → FetchOutcome)
    (acc : (List DateSummary × List (Str × Str)) × Stores) (d : Str) :
    (List DateSummary × List (Str × Str)) × Stores :=
  match processSingleDate facility d (fetch d) acc.2 with
  | (Except.ok r, st1) => ((acc.1.1 ++ [r], acc.1.2), st1)
  | (Except.error e, st1) => ((acc.1.1, acc.1.2 ++ [(d, errStr e)]), st1)

/-- The per-date loop of `lambda_handler`: process each date in order,
catching a failing date's error and continuing with the next date. -/
def runLoop (facility : Str) (fetch : Str → FetchOutcome) (dates : List Str)
    (s : Stores) : (List DateSummary × List (Str × Str)) × Stores :=
  dates.foldl (dateStep facility fetch) (([], []), s)

/-- Embedding of the date-processing part of `lambda_handler`
(src/fetcher.py): run the per-date unit over the target dates and build
the aggregate result (the email notification is an external effect and is
not modelled). -/
def lambda_handler_dates (facility : Str) (fetch : Str → FetchOutcome)
    (dates : List Str) (s : Stores) : RunResult × Stores :=
  let r := runLoop facility fetch dates s
  let results := r.1.1
  let errs := r.1.2
  ({ status := if errs.isEmpty then ("ok").data else ("partial").data,
     processed_dates := results.map (fun x => x.date),
     total_dates := dates.length,
     total_catches := (results.map (fun x => x.catches)).sum,
     results := results,
     errors := if errs.isEmpty then Option.none else Option.some errs }, r.2)

/-! ## Read API (src/app.py) -/

/-- `it.get(k)` on a stored record. -/
def aget (it : Item) (k : Str) : Option DVal :=
  (it.find? (fun kv => decide (kv.1 = k))).map (fun kv => kv.2)

/-- `it.get(k, "")` for a string attribute: the empty string when the
attribute is absent (a non-string value in a key attribute cannot occur
under the table schema and is mapped to the empty string as well). -/
def agetStrD (it : Item) (k : Str) : Str :=
  match aget it k with
  | Option.some (DVal.s v) => v
  | _ => []

/-- `it.get(k)` as the JSON value placed in the response (`None` when the
attribute is absent). -/
def agetJ (it : Item) (k : Str) : DVal :=
  match aget it k with
  | Option.some v => v
  | Option.none => DVal.null

mutual

/-- Embedding of `_convert_decimal` (src/app.py): a `Decimal` with no
fractional part becomes an `int`, any other `Decimal` becomes a `float`;
dicts and lists are converted recursively; everything else is returned
unchanged. -/
def convDec : DVal → DVal
  | DVal.dec n scale =>
    if n % (10 : Int) ^ scale = 0 then DVal.int (decTrunc n scale)
    else DVal.float n scale
  | DVal.dict m => DVal.dict (convDecA m)
  | DVal.list l => DVal.list (convDecL l)
  | DVal.null => DVal.null
  | DVal.s v => DVal.s v
  | DVal.int n => DVal.int n
  | DVal.float n scale => DVal.float n scale
  | DVal.bool b => DVal.bool b

/-- `_convert_decimal` on a list. -/
def convDecL : List DVal → List DVal
  | [] => []
  | v :: vs => convDec v :: convDecL vs

/-- `_convert_decimal` on a dict. -/
def convDecA : List (Str × DVal) → List (Str × DVal)
  | [] => []
  | (k, v) :: m => (k, convDec v) :: convDecA m

end

/-- The `extract_date` helper of `handle_series` applied to a sort-key
string: the piece after the first `#`, or the epoch-minimum sentinel
`"0000-00-00"` when there is no such piece. -/
def extract_date_sk (sk : Str) : Str :=
  match splitSharp sk with
  | _ :: d :: _ => d
  | _ => ("0000-00-00").data

/-- `extract_date` applied to a stored record (reads its `SK`, missing
`SK` giving the empty string). -/
def extract_date (it : Item) : Str :=
  extract_date_sk (agetStrD it (("SK").data))

/-- A DynamoDB sort-key condition (`eq` is not used by this code). -/
inductive SkCond where
  | all
  | gte (lo : Str)
  | between (lo hi : Str)

/-- Whether a sort key satisfies a key condition (byte-order comparison,
`between` inclusive on both bare bounds). -/
def skCondHolds (cond : SkCond) (sk : Str) : Bool :=
  match cond with
  | SkCond.all => true
  | SkCond.gte lo => strLe lo sk
  | SkCond.between lo hi => strLe lo sk && strLe sk hi

/-- The partition key and sort-key condition built by `handle_series`
from the query parameters: both bounds present gives a `between` on the
bare `DATE#...` prefixes, only `from` gives `gte`, and otherwise — in
particular when only `to` is present — the whole partition is queried. -/
def seriesKeyCond (facility fish : Str) (dateFrom dateTo : Option Str) :
    Str × SkCond :=
  let pk := ("FACILITY#").data ++ pyStrip facility ++ ("#FISH#").data ++ fish
  match dateFrom, dateTo with
  | Option.some f, Option.some t =>
    (pk, SkCond.between (("DATE#").data ++ f) (("DATE#").data ++ t))
  | Option.some f, Option.none => (pk, SkCond.gte (("DATE#").data ++ f))
  | Option.none, _ => (pk, SkCond.all)

/-- Whether the item's `PK` attribute is the given partition-key string. -/
def pkAttrEq (it : Item) (pk : Str) : Bool :=
  match aget it (("PK").data) with
  | Option.some (DVal.s v) => decide (v = pk)
  | _ => false

/-- Whether the item's `SK` attribute satisfies the sort-key condition. -/
def skAttrHolds (it : Item) (cond : SkCond) : Bool :=
  match aget it (("SK").data) with
  | Option.some (DVal.s v) => skCondHolds cond v
  | _ => false

/-- The semantics of `table.query(KeyConditionExpression=...)` over the
whole catch table: exactly the items whose `PK` attribute equals the
partition key and whose `SK` attribute satisfies the sort-key condition. -/
def ddbQueryCatch (table : List Item) (pk : Str) (cond : SkCond) : List Item :=
  table.filter (fun it => pkAttrEq it pk && skAttrHolds it cond)

/-- One record of the `items` array in the `handle_series` response. -/
structure OutRec where
  date : Str
  count : DVal
  minSize : DVal
  maxSize : DVal
  unit : DVal
  place : DVal

/-- The response record built from one stored item (before decimal
conversion). -/
def outOf (it : Item) : OutRec :=
  { date := extract_date it,
    count := agetJ it (("count").data),
    minSize := agetJ it (("minSize").data),
    maxSize := agetJ it (("maxSize").data),
    unit := agetJ it (("unit").data),
    place := agetJ it (("place").data) }

/-- `_convert_decimal` applied to a response record (its `date` field is
a string and is unchanged by the conversion). -/
def convOut (r : OutRec) : OutRec :=
  { date := r.date, count := convDec r.count, minSize := convDec r.minSize,
    maxSize := convDec r.maxSize, unit := convDec r.unit,
    place := convDec r.place }

/-- Embedding of the result assembly of `handle_series` (src/app.py):
concatenate every page returned by the paginated query, stably sort the
items ascending by the date extracted from each record's own sort key,
project to the response shape, and convert decimals. -/
def handle_series_items (pages : List (List Item)) : List OutRec :=
  let items := pages.flatten
  let sorted := pySorted (fun a b => strLe (extract_date a) (extract_date b)) items
  (sorted.map outOf).map convOut

/-- The response of `handle_day`: 404 or the 200 body. -/
inductive DayResp where
  | notFound
  | found (body : Item)

/-- `item.pop(k, None)`: remove the attribute named `k` (a dict has at
most one entry per key, so removing every occurrence in the list model is
the faithful quotient). -/
def eraseKey (k : Str) (it : Item) : Item :=
  it.filter (fun kv => ! decide (kv.1 = k))

/-- Embedding of `handle_day` (src/app.py): point-read the daily record
at `(FACILITY#facility, DATE#date)`; absence (and, per Python truthiness,
an empty record, which cannot occur under the table schema) gives a 404;
otherwise the body is the record with `PK` and `SK` removed and decimals
converted.  The store is returned unchanged: this code path performs no
write. -/
def handle_day (daily : Str × Str → Option Item) (facility date : Str) :
    DayResp × (Str × Str → Option Item) :=
  let pk := ("FACILITY#").data ++ pyStrip facility
  let sk := ("DATE#").data ++ date
  match daily (pk, sk) with
  | Option.none => (DayResp.notFound, daily)
  | Option.some item =>
    if item.isEmpty then (DayResp.notFound, daily)
    else
      (DayResp.found (convDecA (eraseKey (("SK").data) (eraseKey (("PK").data) item))),
        daily)

/-! ## Lemmas: byte-order string comparison -/

theorem strLe_refl (a : Str) : strLe a a = true := by
  induction a with
  | nil => rfl
  | cons c cs ih => simp [strLe, lt_self_iff_false, ih]

theorem strLe_total : ∀ a b : Str, (strLe a b || strLe b a) = true := by
  intro a
  induction a with
  | nil => intro b; cases b <;> simp [strLe]
  | cons x xs ih =>
    intro b
    cases b with
    | nil => simp [strLe]
    | cons y ys =>
      rcases lt_trichotomy x y with h | h | h
      · simp [strLe, h]
      · subst h; simp [strLe, lt_self_iff_false, ih ys]
      · have hne : ¬ x = y := ne_of_gt h
        have hnlt : ¬ x < y := not_lt.mpr (le_of_lt h)
        simp [strLe, hnlt, hne, h]

theorem strLe_trans : ∀ a b c : Str, strLe a b = true → strLe b c = true →
    strLe a c = true := by
  intro a
  induction a with
  | nil => intro b c _ _; rfl
  | cons x xs ih =>
    intro b c hab hbc
    cases b with
    | nil => simp [strLe] at hab
    | cons y ys =>
      cases c with
      | nil => simp [strLe] at hbc
      | cons z zs =>
        rcases lt_trichotomy x y with h1 | h1 | h1
        · rcases lt_trichotomy y z with h2 | h2 | h2
          · simp [strLe, lt_trans h1 h2]
          · subst h2; simp [strLe, h1]
          · have hne : ¬ y = z := ne_of_gt h2
            have hnlt : ¬ y < z := not_lt.mpr (le_of_lt h2)
            simp [strLe, hnlt, hne] at hbc
        · subst h1
          rcases lt_trichotomy x z with h2 | h2 | h2
          · simp [strLe, h2]
          · subst h2
            simp only [strLe, lt_self_iff_false, if_false, if_pos rfl] at hab hbc ⊢
            exact ih ys zs hab hbc
          · have hne : ¬ x = z := ne_of_gt h2
            have hnlt : ¬ x < z := not_lt.mpr (le_of_lt h2)
            simp [strLe, hnlt, hne] at hbc
        · have hne : ¬ x = y := ne_of_gt h1
          have hnlt : ¬ x < y := not_lt.mpr (le_of_lt h1)
          simp [strLe, hnlt, hne] at hab

theorem strLe_append_cancel (p : Str) : ∀ a b : Str,
    strLe (p ++ a) (p ++ b) = strLe a b := by
  induction p with
  | nil => intro a b; rfl
  | cons c cs ih =>
    intro a b
    simp [List.cons_append, strLe, lt_self_iff_false, ih]

theorem strLe_prefix_long : ∀ a b r : Str, a.length ≤ b.length →
    strLe a (b ++ r) = strLe a b := by
  intro a
  induction a with
  | nil => intro b r _; rfl
  | cons x xs ih =>
    intro b r h
    cases b with
    | nil => simp at h
    | cons y ys =>
      simp only [List.cons_append, strLe]
      by_cases h1 : x < y
      · simp [h1]
      · by_cases h2 : x = y
        · subst h2; simp [h1, ih ys r (by simpa using h)]
        · simp [h1, h2]

theorem strLe_extend_lt : ∀ a b r : Str, a.length = b.length → r ≠ [] →
    strLe (a ++ r) b = strLt a b := by
  intro a
  induction a with
  | nil =>
    intro b r hlen hr
    cases b with
    | nil =>
      cases r with
      | nil => exact absurd rfl hr
      | cons c cs => rfl
    | cons y ys => simp at hlen
  | cons x xs ih =>
    intro b r hlen hr
    cases b with
    | nil => simp at hlen
    | cons y ys =>
      simp only [List.cons_append, strLe, strLt]
      by_cases h1 : x < y
      · simp [h1]
      · by_cases h2 : x = y
        · subst h2; simp [h1, ih ys r (by simpa using hlen) hr]
        · simp [h1, h2]

/-! ## Lemmas: `#`-separated segments -/

theorem append_sharp_inj : ∀ a b x y : Str, '#' ∉ a → '#' ∉ b →
    a ++ '#' :: x = b ++ '#' :: y → a = b ∧ x = y := by
  intro a
  induction a with
  | nil =>
    intro b x y _ hb h
    cases b with
    | nil => simpa using h
    | cons d bs =>
      simp only [List.nil_append, List.cons_append, List.cons.injEq] at h
      rcases h with ⟨h1, h2⟩
      rw [← h1] at hb
      exact absurd (List.mem_cons_self _ _) hb
  | cons c as_ ih =>
    intro b x y ha hb h
    cases b with
    | nil =>
      simp only [List.cons_append, List.nil_append, List.cons.injEq] at h
      rcases h with ⟨h1, h2⟩
      rw [h1] at ha
      exact absurd (List.mem_cons_self _ _) ha
    | cons d bs =>
      simp only [List.cons_append, List.cons.injEq] at h
      rcases h with ⟨h1, h2⟩
      subst h1
      have ha2 : '#' ∉ as_ := fun hm => ha (List.mem_cons_of_mem _ hm)
      have hb2 : '#' ∉ bs := fun hm => hb (List.mem_cons_of_mem _ hm)
      rcases ih bs x y ha2 hb2 h2 with ⟨he, hxy⟩
      exact ⟨by rw [he], hxy⟩

theorem splitSharp_ne_nil : ∀ s : Str, splitSharp s ≠ [] := by
  intro s
  induction s with
  | nil => simp [splitSharp]
  | cons c cs ih =>
    simp only [splitSharp]
    by_cases h : c = '#'
    · simp [h]
    · simp only [h, if_false]
      cases hs : splitSharp cs with
      | nil => exact absurd hs ih
      | cons a t => simp

theorem splitSharp_append : ∀ a x : Str, '#' ∉ a →
    splitSharp (a ++ '#' :: x) = a :: splitSharp x := by
  intro a
  induction a with
  | nil => intro x _; simp [splitSharp]
  | cons c as_ ih =>
    intro x ha
    have hc : ¬ c = '#' := fun h => ha (by rw [h]; exact List.mem_cons_self _ _)
    have ha2 : '#' ∉ as_ := fun hm => ha (List.mem_cons_of_mem _ hm)
    simp only [List.cons_append, splitSharp, hc, if_false]
    rw [show splitSharp (as_.append ('#' :: x)) = as_ :: splitSharp x from ih x ha2]

/-! ## Lemmas: the stable sort -/

theorem insertB_perm {α : Type} (le : α → α → Bool) (x : α) :
    ∀ l : List α, (insertB le x l).Perm (x :: l) := by
  intro l
  induction l with
  | nil => simp [insertB]
  | cons y ys ih =>
    simp only [insertB]
    by_cases h : le x y
    · simp [h]
    · simp only [h, if_false]
      exact (ih.cons y).trans (List.Perm.swap x y ys)

theorem pySorted_perm {α : Type} (le : α → α → Bool) :
    ∀ l : List α, (pySorted le l).Perm l := by
  intro l
  induction l with
  | nil => simp [pySorted]
  | cons x xs ih =>
    exact (insertB_perm le x (pySorted le xs)).trans (ih.cons x)

theorem insertB_pairwise {α : Type} {le : α → α → Bool}
    (htot : ∀ a b, (le a b || le b a) = true)
    (htr : ∀ a b c, le a b = true → le b c = true → le a c = true)
    (x : α) : ∀ l : List α, List.Pairwise (fun a b => le a b = true) l →
      List.Pairwise (fun a b => le a b = true) (insertB le x l) := by
  intro l
  induction l with
  | nil => intro _; simp [insertB]
  | cons y ys ih =>
    intro hp
    rcases List.pairwise_cons.mp hp with ⟨hy, hys⟩
    simp only [insertB]
    by_cases h : le x y = true
    · rw [if_pos h]
      refine List.pairwise_cons.mpr ⟨?_, hp⟩
      intro b hb
      rcases List.mem_cons.mp hb with rfl | hb2
      · exact h
      · exact htr x y b h (hy b hb2)
    · rw [if_neg h]
      refine List.pairwise_cons.mpr ⟨?_, ih hys⟩
      intro b hb
      rcases List.mem_cons.mp ((insertB_perm le x ys).mem_iff.mp hb) with hbx | hb2
      · rw [hbx]
        have hxy : le x y = false := by simpa using h
        simpa [hxy] using htot x y
      · exact hy b hb2

theorem pySorted_pairwise {α : Type} {le : α → α → Bool}
    (htot : ∀ a b, (le a b || le b a) = true)
    (htr : ∀ a b c, le a b = true → le b c = true → le a c = true) :
    ∀ l : List α, List.Pairwise (fun a b => le a b = true) (pySorted le l) := by
  intro l
  induction l with
  | nil => simp [pySorted]
  | cons x xs ih => exact insertB_pairwise htot htr x _ ih

/-! ## Lemmas: key-value upserts -/

theorem upsert_idem {κ α : Type} [DecidableEq κ] (k : κ) (v : α) (m : κ → Option α) :
    upsert k v (upsert k v m) = upsert k v m := by
  funext q
  by_cases h : q = k <;> simp [upsert, h]

/-- The storage key of a catch record. -/
def catchKeyOf (c : CatchRec) : Str × Str :=
  (make_catch_pk c.facility c.fish, make_catch_sk c.date c.slot c.place)

/-- The last record of `cs` whose storage key is `k` (the batch writer
gives last-write-wins at equal keys). -/
def lastCatchAt : List CatchRec → (Str × Str) → Option CatchRec
  | [], _ => Option.none
  | c :: cs, k =>
    match lastCatchAt cs k with
    | Option.some r => Option.some r
    | Option.none => if catchKeyOf c = k then Option.some c else Option.none

theorem put_ddb_catches_apply : ∀ (cs : List CatchRec) (t : Str × Str → Option Item)
    (k : Str × Str),
    put_ddb_catches cs t k =
      (match lastCatchAt cs k with
       | Option.some c => Option.some (catchToItem c)
       | Option.none => t k) := by
  intro cs
  induction cs with
  | nil => intro t k; rfl
  | cons c cs ih =>
    intro t k
    have hstep : put_ddb_catches (c :: cs) t
        = put_ddb_catches cs (upsert (catchKeyOf c) (catchToItem c) t) := rfl
    rw [hstep, ih]
    simp only [lastCatchAt]
    cases lastCatchAt cs k with
    | some r => rfl
    | none =>
      by_cases h : catchKeyOf c = k
      · subst h; simp [upsert]
      · have h2 : ¬ k = catchKeyOf c := fun he => h he.symm
        simp [upsert, h, h2]

theorem put_ddb_catches_idem (cs : List CatchRec) (t : Str × Str → Option Item) :
    put_ddb_catches cs (put_ddb_catches cs t) = put_ddb_catches cs t := by
  funext k
  rw [put_ddb_catches_apply cs (put_ddb_catches cs t) k, put_ddb_catches_apply cs t k]
  cases h : lastCatchAt cs k with
  | some c => rfl
  | none => rfl

/-! ## C2: idempotence of the per-date ingestion unit -/

/-- C2: running the per-date ingestion unit twice with identical upstream
data leaves the stores (S3 archive, daily table and catch table, each
modelled as a key-to-record map) in exactly the state reached after
running it once: the daily record is replaced wholesale at its key and the
catch records overwrite the records at identical keys, so re-ingestion
creates no duplicates and no drift.  This holds in every case, including
the failure modes (where the writes performed before the failure are
themselves idempotent). -/
theorem process_single_date_idempotent (facility dateDash : Str)
    (fo : FetchOutcome) (s : Stores) :
    (processSingleDate facility dateDash fo
        (processSingleDate facility dateDash fo s).2).2
      = (processSingleDate facility dateDash fo s).2 := by
  cases fo with
  | fail msg => rfl
  | ok u =>
    cases hpl : pick_latest u.items with
    | error e => simp [processSingleDate, hpl]
    | ok item =>
      cases hn : normalize_catch_count item facility dateDash with
      | error e => simp [processSingleDate, hpl, hn, upsert_idem]
      | ok daily =>
        cases hf : normalize_fishes item facility dateDash with
        | error e => simp [processSingleDate, hpl, hn, hf, upsert_idem]
        | ok catches =>
          simp [processSingleDate, hpl, hn, hf, upsert_idem, put_ddb_daily,
            put_ddb_catches_idem]

/-! ## C9: step ordering and effect conditioning of the per-date unit -/

/-- C9 (amended): the per-date unit runs fetch, candidate selection,
archive, normalization, daily persist, catch persist in that order, and:
a fetch failure or an empty candidate list leaves every store untouched;
a normalization failure (required-field check, or an uncaught numeric
conversion error in either normalizer) leaves the daily and catch tables
untouched but the raw archive already written — the archive write takes
effect as soon as fetch and candidate selection succeed, even if
normalization later fails; the daily and catch writes take effect only
when normalization succeeds. -/
theorem process_single_date_effects (facility dateDash : Str)
    (fo : FetchOutcome) (s : Stores) :
    (∀ msg, fo = FetchOutcome.fail msg →
        (processSingleDate facility dateDash fo s).2 = s)
    ∧ (∀ u e, fo = FetchOutcome.ok u → pick_latest u.items = Except.error e →
        (processSingleDate facility dateDash fo s).2 = s)
    ∧ (∀ u item e, fo = FetchOutcome.ok u →
        pick_latest u.items = Except.ok item →
        normalize_catch_count item facility dateDash = Except.error e →
        (processSingleDate facility dateDash fo s).2
          = { s with s3 :=
                upsert (rawKeyOf facility (("catch_count").data) dateDash) u.raw s.s3 })
    ∧ (∀ u item daily e, fo = FetchOutcome.ok u →
        pick_latest u.items = Except.ok item →
        normalize_catch_count item facility dateDash = Except.ok daily →
        normalize_fishes item facility dateDash = Except.error e →
        (processSingleDate facility dateDash fo s).2
          = { s with s3 :=
                upsert (rawKeyOf facility (("catch_count").data) dateDash) u.raw s.s3 })
    ∧ (∀ u item daily catches, fo = FetchOutcome.ok u →
        pick_latest u.items = Except.ok item →
        normalize_catch_count item facility dateDash = Except.ok daily →
        normalize_fishes item facility dateDash = Except.ok catches →
        (processSingleDate facility dateDash fo s).2
          = { s3 :=
                upsert (rawKeyOf facility (("catch_count").data) dateDash) u.raw s.s3,
              daily :=
                put_ddb_daily daily
                  [((("catch_count").data),
                    rawKeyOf facility (("catch_count").data) dateDash)] s.daily,
              catchTbl := put_ddb_catches catches s.catchTbl }) := by
  refine ⟨?_, ?_, ?_, ?_, ?_⟩
  · intro msg hfo; subst hfo; rfl
  · intro u e hfo hpl; subst hfo; simp [processSingleDate, hpl]
  · intro u item e hfo hpl hn; subst hfo; simp [processSingleDate, hpl, hn]
  · intro u item daily e hfo hpl hn hf; subst hfo
    simp [processSingleDate, hpl, hn, hf]
  · intro u item daily catches hfo hpl hn hf; subst hfo
    simp [processSingleDate, hpl, hn, hf]

/-! Concrete upstream posts used by the examples below. -/

/-- A well-formed catch-count post: all required fields present, exactly
one fish slot (slot 3) populated. -/
def goodPost : LastPost :=
  { id := PyVal.str (("p1").data), sentence := PyVal.str (("好釣").data),
    weather := PyVal.str (("晴れ").data), waterTemp := PyVal.str (("18").data),
    tide := PyVal.str (("中潮").data), visitors := PyVal.str (("120").data),
    updatedAt := Option.some (("2024-01-01T10:00:00Z").data),
    fishName := fun i => if i = 3 then Option.some (("イワシ").data) else Option.none,
    fishCount := fun i => if i = 3 then PyVal.str (("50").data) else PyVal.none,
    fishMinSize := fun i => if i = 3 then PyVal.int 10 else PyVal.none,
    fishMaxSize := fun i => if i = 3 then PyVal.int 15 else PyVal.none,
    fishUnit := fun i => if i = 3 then PyVal.str (("cm").data) else PyVal.none,
    fishPlace := fun i => if i = 3 then Option.some (Sum.inl (("沖").data)) else Option.none }

/-- The same post with the required `visitors` field missing. -/
def badPost : LastPost :=
  { goodPost with visitors := PyVal.none }

/-- An upstream payload delivering `badPost`. -/
def badUpstream : Upstream :=
  { raw := DVal.dict [(("data").data, DVal.s (("raw-bad").data))], items := [badPost] }

/-- An upstream payload delivering `goodPost`. -/
def goodUpstream : Upstream :=
  { raw := DVal.dict [(("data").data, DVal.s (("raw-good").data))], items := [goodPost] }

/-- C9, counterexample to the claim as stated: for a date whose
normalization fails (missing `visitors`), the claim says no archive write
happens, but the per-date unit has already archived the raw response to
S3 when the `ValidationError` is raised: starting from empty stores, the
unit fails with the validation error naming `visitors`, yet the raw
archive key now holds the raw payload (it held nothing before). -/
theorem process_single_date_archive_written_despite_validation_failure :
    (processSingleDate (("honmoku").data) (("2024-01-01").data)
        (FetchOutcome.ok badUpstream) emptyStores).1
      = Except.error (IngestErr.validation [("visitors").data])
    ∧ (processSingleDate (("honmoku").data) (("2024-01-01").data)
        (FetchOutcome.ok badUpstream) emptyStores).2.s3
        (rawKeyOf (("honmoku").data) (("catch_count").data) (("2024-01-01").data))
      = Option.some badUpstream.raw
    ∧ emptyStores.s3
        (rawKeyOf (("honmoku").data) (("catch_count").data) (("2024-01-01").data))
      = Option.none := by
  refine ⟨rfl, rfl, rfl⟩

/-- Witness for the amended C9 theorem at a concrete input: the
normalization-failure case with `badPost`. -/
theorem process_single_date_effects_witness :
    (processSingleDate (("honmoku").data) (("2024-01-01").data)
        (FetchOutcome.ok badUpstream) emptyStores).2
      = { emptyStores with
          s3 :=
            upsert
              (rawKeyOf (("honmoku").data) (("catch_count").data) (("2024-01-01").data))
              badUpstream.raw emptyStores.s3 } :=
  (process_single_date_effects (("honmoku").data) (("2024-01-01").data)
      (FetchOutcome.ok badUpstream) emptyStores).2.2.1 badUpstream badPost
    (IngestErr.validation [("visitors").data]) rfl rfl rfl

/-! ## C4: behaviour of `safe_int` -/

/-- C4 (code bug at non-finite values): `safe_int` behaves as specified on
null, integers, finite floats and ordinary strings — `"12"`, `"12.7"`,
`"-3"` give 12, 12, -3 and `""`, null, `"abc"` give null — but it is not
exception-free: the string `"inf"` (parsed by `float` to infinity, whose
`int(...)` raises `OverflowError`, not caught by `except ValueError`) and
the non-finite float inputs raise, contradicting the claim and the
function's own documentation. -/
theorem safe_int_eval :
    safe_int (PyVal.str (("inf").data)) = Except.error PyExn.overflowError
    ∧ safe_int (PyVal.float PyFloat.inf) = Except.error PyExn.overflowError
    ∧ safe_int (PyVal.float PyFloat.nan) = Except.error PyExn.valueError
    ∧ safe_int (PyVal.str (("12").data)) = Except.ok (Option.some 12)
    ∧ safe_int (PyVal.str (("12.7").data)) = Except.ok (Option.some 12)
    ∧ safe_int (PyVal.str (("-3").data)) = Except.ok (Option.some (-3))
    ∧ safe_int (PyVal.str []) = Except.ok Option.none
    ∧ safe_int PyVal.none = Except.ok Option.none
    ∧ safe_int (PyVal.str (("abc").data)) = Except.ok Option.none
    ∧ safe_int (PyVal.str (("nan").data)) = Except.ok Option.none
    ∧ (∀ n : Int, safe_int (PyVal.int n) = Except.ok (Option.some n))
    ∧ (∀ n sc, safe_int (PyVal.float (PyFloat.finite n sc))
        = Except.ok (Option.some (decTrunc n sc))) :=
  ⟨rfl, rfl, rfl, rfl, rfl, rfl, rfl, rfl, rfl, rfl, fun _ => rfl, fun _ _ => rfl⟩

/-! ## Lemmas: stripping and whitespace -/

theorem dropWhile_head_false {p : Char → Bool} :
    ∀ (l : List Char) (c : Char) (cs : List Char),
      l.dropWhile p = c :: cs → p c = false := by
  intro l
  induction l with
  | nil => intro c cs h; simp [List.dropWhile] at h
  | cons a l2 ih =>
    intro c cs h
    by_cases hp : p a = true
    · rw [List.dropWhile_cons, if_pos hp] at h
      exact ih c cs h
    · rw [List.dropWhile_cons, if_neg hp] at h
      rcases List.cons.injEq .. ▸ h with ⟨h1, _⟩
      rw [← h1]
      simpa using hp

theorem pyStrip_eq_nil_iff (l : Str) :
    pyStrip l = [] ↔ ∀ c ∈ l, isPySpace c = true := by
  constructor
  · intro h
    have h1 : (l.dropWhile isPySpace).reverse.dropWhile isPySpace = [] := by
      simpa [pyStrip] using h
    have h2 : ∀ c ∈ (l.dropWhile isPySpace).reverse, isPySpace c = true :=
      List.dropWhile_eq_nil_iff.mp h1
    cases hd : l.dropWhile isPySpace with
    | nil => exact List.dropWhile_eq_nil_iff.mp hd
    | cons c cs =>
      exfalso
      have hcp : isPySpace c = true := by
        refine h2 c (List.mem_reverse.mpr ?_)
        rw [hd]; exact List.mem_cons_self _ _
      have hcf : isPySpace c = false := dropWhile_head_false l c cs hd
      rw [hcp] at hcf
      exact absurd hcf (by simp)
  · intro h
    simp [pyStrip, List.dropWhile_eq_nil_iff.mpr h]

theorem replNL_all_space_iff (s : Str) :
    (∀ c ∈ replNL s, isPySpace c = true) ↔ (∀ c ∈ s, isPySpace c = true) := by
  constructor
  · intro h c hc
    have hmem : (if c = '\n' then ' ' else c) ∈ replNL s := by
      simp only [replNL]
      exact List.mem_map_of_mem _ hc
    have h2 := h _ hmem
    by_cases hcn : c = '\n'
    · subst hcn; rfl
    · simpa [hcn] using h2
  · intro h c hc
    rcases List.mem_map.mp (by simpa [replNL] using hc) with ⟨a, ha, hEq⟩
    by_cases han : a = '\n'
    · rw [← hEq]; simp [han]; rfl
    · rw [← hEq]
      simpa [han] using h a ha

/-! ## C7: the catch sort key and place sanitization -/

/-- C7, counterexample to the claim as stated: the place segment of the
catch sort key can be empty.  The single-space place `" "` is non-empty
(truthy), so the `UNKNOWN` sentinel is not substituted, and the
subsequent strip reduces it to the empty string — the produced key ends
in `PLACE#` with an empty segment. -/
theorem make_catch_sk_empty_place_segment :
    make_catch_sk (("2024-01-01").data) 1 (Option.some (Sum.inl ((" ").data)))
      = ("DATE#2024-01-01#SLOT#01#PLACE#").data
    ∧ (" ").data ≠ ([] : Str)
    ∧ sanitizePlace (Option.some (Sum.inl ((" ").data))) = [] :=
  ⟨rfl, by decide, rfl⟩

/-- C7 (amended): the catch sort key has the form
`DATE#<date>#SLOT#<2-digit slot>#PLACE#<sanitized place>`; sanitization
joins a multi-valued place over its non-empty elements with single
spaces, replaces an absent or empty (falsy) place with the sentinel
`UNKNOWN`, replaces newlines with spaces and trims surrounding
whitespace.  The place segment can be empty, but only when the
(joined) place input is non-empty yet consists entirely of whitespace —
the sentinel is substituted before trimming. -/
theorem make_catch_sk_spec :
    (∀ (date : Str) (slot : Int) (place : PlaceTy),
        make_catch_sk date slot place
          = ("DATE#").data ++ date ++ ("#SLOT#").data ++ format02d slot
              ++ ("#PLACE#").data ++ sanitizePlace place)
    ∧ sanitizePlace Option.none = ("UNKNOWN").data
    ∧ sanitizePlace (Option.some (Sum.inl [])) = ("UNKNOWN").data
    ∧ sanitizePlace (Option.some (Sum.inr [])) = ("UNKNOWN").data
    ∧ (∀ s : Str, s ≠ [] → sanitizePlace (Option.some (Sum.inl s)) = pyStrip (replNL s))
    ∧ (∀ l : List Str, l ≠ [] → joinSpace (l.filter (fun p => p ≠ [])) ≠ [] →
        sanitizePlace (Option.some (Sum.inr l))
          = pyStrip (replNL (joinSpace (l.filter (fun p => p ≠ [])))))
    ∧ (∀ l : List Str, l ≠ [] → joinSpace (l.filter (fun p => p ≠ [])) = [] →
        sanitizePlace (Option.some (Sum.inr l)) = ("UNKNOWN").data)
    ∧ (∀ place : PlaceTy, sanitizePlace place = [] ↔
        ∃ s, preJoin place = Option.some s ∧ s ≠ [] ∧ ∀ c ∈ s, isPySpace c = true) := by
  refine ⟨fun _ _ _ => rfl, rfl, rfl, rfl, ?_, ?_, ?_, ?_⟩
  · intro s hs
    simp [sanitizePlace, preJoin, hs]
  · intro l hl hj
    simp only [sanitizePlace, preJoin, if_neg hl]
    rw [if_neg hj]
  · intro l hl hj
    simp only [sanitizePlace, preJoin, if_neg hl]
    rw [if_pos hj]
    rfl
  · intro place
    constructor
    · intro h
      rcases hpj : preJoin place with _ | s
      · exfalso
        rw [sanitizePlace, hpj] at h
        exact absurd h (by decide)
      · by_cases hs : s = []
        · exfalso
          subst hs
          rw [sanitizePlace, hpj] at h
          simp only [if_pos rfl] at h
          exact absurd h (by decide)
        · refine ⟨s, rfl, hs, ?_⟩
          rw [sanitizePlace, hpj] at h
          simp only [hs, if_neg hs] at h
          exact (replNL_all_space_iff s).mp ((pyStrip_eq_nil_iff (replNL s)).mp h)
    · rintro ⟨s, hpj, hs, hws⟩
      rw [sanitizePlace, hpj]
      simp only [hs, if_neg hs]
      exact (pyStrip_eq_nil_iff (replNL s)).mpr ((replNL_all_space_iff s).mpr hws)

/-- Witness for the amended C7 theorem at concrete inputs: a place with
surrounding whitespace and an embedded newline sanitizes by
newline-replacement and trimming, and the whitespace-only place `" "`
falls in the empty-segment case of the characterization. -/
theorem make_catch_sk_spec_witness :
    sanitizePlace (Option.some (Sum.inl ((" A\nB ").data)))
      = pyStrip (replNL ((" A\nB ").data))
    ∧ pyStrip (replNL ((" A\nB ").data)) = ("A B").data
    ∧ (sanitizePlace (Option.some (Sum.inl ((" ").data))) = [] ↔
        ∃ s, preJoin (Option.some (Sum.inl ((" ").data))) = Option.some s ∧ s ≠ []
          ∧ ∀ c ∈ s, isPySpace c = true) :=
  ⟨make_catch_sk_spec.2.2.2.2.1 ((" A\nB ").data) (by decide), rfl,
    make_catch_sk_spec.2.2.2.2.2.2.2 (Option.some (Sum.inl ((" ").data)))⟩

/-! ## C1: determinism and injectivity of the catch keys -/

theorem format02d_inj_le30 : ∀ a b : Fin 31,
    format02d (Int.ofNat a.val) = format02d (Int.ofNat b.val) → a = b := by
  decide

theorem format02d_no_sharp : ∀ a : Fin 31, '#' ∉ format02d (Int.ofNat a.val) := by
  decide

theorem format02d_len2 : ∀ a : Fin 31, (format02d (Int.ofNat a.val)).length = 2 := by
  decide

/-- C1, counterexample to the claim as stated: over arbitrary facility and
fish strings the partition key is not injective — a `#FISH#` fragment
inside the facility can be re-parsed as the separator.  The distinct
tuples `("a#FISH#b", "c")` and `("a", "b#FISH#c")` (same date, slot and
place, so the sort keys coincide and place sanitization collapses
nothing) produce identical partition keys. -/
theorem catch_key_collision_without_place_collapse :
    make_catch_pk (("a#FISH#b").data) (("c").data)
      = make_catch_pk (("a").data) (("b#FISH#c").data)
    ∧ ((("a#FISH#b").data, ("c").data) : Str × Str) ≠ ((("a").data), (("b#FISH#c").data))
    ∧ make_catch_sk (("2024-01-01").data) 1 (Option.some (Sum.inl (("x").data)))
      = make_catch_sk (("2024-01-01").data) 1 (Option.some (Sum.inl (("x").data))) :=
  ⟨rfl, by decide, rfl⟩

/-- C1 (amended): the key builders are deterministic (they are pure
functions of their arguments), and injective on the domain the system
uses — facility, fish and date free of the `#` separator and slot in
1..30 (the sanitized place, being the final segment, needs no
restriction): equal partition keys and equal sort keys force equal
facility, fish, date and slot, and equal sanitized places — so distinct
such tuples collide only when place sanitization collapses their
distinct place inputs to the same value. -/
theorem catch_key_injective
    (f1 g1 d1 : Str) (s1 : Int) (p1 : PlaceTy)
    (f2 g2 d2 : Str) (s2 : Int) (p2 : PlaceTy)
    (hf1 : '#' ∉ f1) (hf2 : '#' ∉ f2)
    (hd1 : '#' ∉ d1) (hd2 : '#' ∉ d2)
    (hs1a : 1 ≤ s1) (hs1b : s1 ≤ 30) (hs2a : 1 ≤ s2) (hs2b : s2 ≤ 30)
    (hpk : make_catch_pk f1 g1 = make_catch_pk f2 g2)
    (hsk : make_catch_sk d1 s1 p1 = make_catch_sk d2 s2 p2) :
    f1 = f2 ∧ g1 = g2 ∧ d1 = d2 ∧ s1 = s2
      ∧ sanitizePlace p1 = sanitizePlace p2 := by
  have hmidF : ∀ x : Str, ("#FISH#").data ++ x = '#' :: (("FISH#").data ++ x) :=
    fun _ => rfl
  have hmidS : ∀ x : Str, ("#SLOT#").data ++ x = '#' :: (("SLOT#").data ++ x) :=
    fun _ => rfl
  have hmidP : ∀ x : Str, ("#PLACE#").data ++ x = '#' :: (("PLACE#").data ++ x) :=
    fun _ => rfl
  -- partition key
  simp only [make_catch_pk, List.append_assoc] at hpk
  have h0 := List.append_cancel_left hpk
  rw [hmidF, hmidF] at h0
  rcases append_sharp_inj f1 f2 _ _ hf1 hf2 h0 with ⟨hf, hrest⟩
  have hg : g1 = g2 := List.append_cancel_left hrest
  -- sort key
  simp only [make_catch_sk, List.append_assoc] at hsk
  have h1 := List.append_cancel_left hsk
  rw [hmidS, hmidS] at h1
  rcases append_sharp_inj d1 d2 _ _ hd1 hd2 h1 with ⟨hd, hrest2⟩
  have h2 := List.append_cancel_left hrest2
  rw [hmidP, hmidP] at h2
  have h0s1 : (0 : Int) ≤ s1 := by omega
  have h0s2 : (0 : Int) ≤ s2 := by omega
  have ha1 : s1.toNat < 31 := by omega
  have ha2 : s2.toNat < 31 := by omega
  have hs1n : Int.ofNat s1.toNat = s1 := Int.toNat_of_nonneg h0s1
  have hs2n : Int.ofNat s2.toNat = s2 := Int.toNat_of_nonneg h0s2
  have hns1 : '#' ∉ format02d s1 := by
    rw [← hs1n]; exact format02d_no_sharp ⟨s1.toNat, ha1⟩
  have hns2 : '#' ∉ format02d s2 := by
    rw [← hs2n]; exact format02d_no_sharp ⟨s2.toNat, ha2⟩
  rcases append_sharp_inj _ _ _ _ hns1 hns2 h2 with ⟨hfmt, hrest3⟩
  have hsp : sanitizePlace p1 = sanitizePlace p2 := List.append_cancel_left hrest3
  have hfin : (⟨s1.toNat, ha1⟩ : Fin 31) = ⟨s2.toNat, ha2⟩ := by
    apply format02d_inj_le30
    rw [show Int.ofNat (Fin.val (⟨s1.toNat, ha1⟩ : Fin 31)) = s1 from hs1n,
      show Int.ofNat (Fin.val (⟨s2.toNat, ha2⟩ : Fin 31)) = s2 from hs2n]
    exact hfmt
  have hs : s1 = s2 := by
    have := Fin.mk.injEq .. ▸ hfin
    omega
  exact ⟨hf, hg, hd, hs, hsp⟩

/-- Witness for the amended C1 theorem at concrete inputs: equal keys,
with the two place inputs distinct (a plain string versus a singleton
list) but collapsing to the same sanitized value. -/
theorem catch_key_injective_witness :
    (("a").data : Str) = ("a").data ∧ (("b").data : Str) = ("b").data
    ∧ (("2024-01-01").data : Str) = ("2024-01-01").data ∧ (3 : Int) = 3
    ∧ sanitizePlace (Option.some (Sum.inl (("oki").data)))
      = sanitizePlace (Option.some (Sum.inr [("oki").data])) :=
  catch_key_injective (("a").data) (("b").data) (("2024-01-01").data) 3
    (Option.some (Sum.inl (("oki").data)))
    (("a").data) (("b").data) (("2024-01-01").data) 3
    (Option.some (Sum.inr [("oki").data]))
    (by decide) (by decide) (by decide) (by decide)
    (by decide) (by decide) (by decide) (by decide)
    rfl rfl

/-! ## C5: fish-slot extraction -/

/-- The per-record property established by extraction: the record came
from a named slot, with every field built from that slot of the post. -/
def FromSlot (item : LastPost) (facility dateDash : Str) (r : CatchRec) : Prop :=
  ∃ (i : Nat) (st : Str),
    r.slot = Int.ofNat i ∧ item.fishName i = Option.some st ∧ st ≠ []
    ∧ r.facility = facility ∧ r.date = dateDash ∧ r.fish = st
    ∧ r.unit = item.fishUnit i ∧ r.place = item.fishPlace i
    ∧ safe_int (item.fishCount i) = Except.ok r.count
    ∧ safe_int (item.fishMinSize i) = Except.ok r.minSize
    ∧ safe_int (item.fishMaxSize i) = Except.ok r.maxSize

theorem fishSlotStep_fold (item : LastPost) (facility dateDash : Str) :
    ∀ (idxs : List Nat) (acc out : List CatchRec),
      idxs.foldlM (fishSlotStep item facility dateDash) acc = Except.ok out →
      out.map (fun r => r.slot)
          = acc.map (fun r => r.slot)
            ++ (idxs.filter (fun i => nameTruthy (item.fishName i))).map Int.ofNat
      ∧ ∀ r ∈ out, r ∈ acc ∨ FromSlot item facility dateDash r := by
  intro idxs
  induction idxs with
  | nil =>
    intro acc out h
    have h2 : (Except.ok acc : Except PyExn (List CatchRec)) = Except.ok out := h
    injection h2 with hout
    subst hout
    exact ⟨by simp, fun r hr => Or.inl hr⟩
  | cons i idxs ih =>
    intro acc out h
    rw [List.foldlM_cons] at h
    rcases hn : item.fishName i with _ | st
    · have hstep : fishSlotStep item facility dateDash acc i = Except.ok acc := by
        simp [fishSlotStep, hn]
      rw [hstep] at h
      have hrec := ih acc out h
      refine ⟨?_, hrec.2⟩
      rw [hrec.1]
      simp [nameTruthy, hn]
    · by_cases hse : st.isEmpty
      · have hstep : fishSlotStep item facility dateDash acc i = Except.ok acc := by
          simp [fishSlotStep, hn, hse]
        rw [hstep] at h
        have hrec := ih acc out h
        refine ⟨?_, hrec.2⟩
        rw [hrec.1]
        simp [nameTruthy, hn, hse]
      · rcases hc : safe_int (item.fishCount i) with e | c
        · have hstep : fishSlotStep item facility dateDash acc i = Except.error e := by
            simp [fishSlotStep, hn, hse, hc]
            rfl
          rw [hstep] at h
          exact Except.noConfusion
            (h : (Except.error e : Except PyExn (List CatchRec)) = Except.ok out)
        · rcases hmn : safe_int (item.fishMinSize i) with e | mn
          · have hstep : fishSlotStep item facility dateDash acc i = Except.error e := by
              simp [fishSlotStep, hn, hse, hc, hmn]
              rfl
            rw [hstep] at h
            exact Except.noConfusion
              (h : (Except.error e : Except PyExn (List CatchRec)) = Except.ok out)
          · rcases hmx : safe_int (item.fishMaxSize i) with e | mx
            · have hstep : fishSlotStep item facility dateDash acc i = Except.error e := by
                simp [fishSlotStep, hn, hse, hc, hmn, hmx]
                rfl
              rw [hstep] at h
              exact Except.noConfusion
                (h : (Except.error e : Except PyExn (List CatchRec)) = Except.ok out)
            · have hstep : fishSlotStep item facility dateDash acc i
                  = Except.ok (acc ++ [mkCatchRec item facility dateDash i st c mn mx]) := by
                simp [fishSlotStep, hn, hse, hc, hmn, hmx]
                rfl
              rw [hstep] at h
              have hrec := ih _ out h
              constructor
              · rw [hrec.1]
                simp [nameTruthy, hn, hse, mkCatchRec]
              · intro r hr
                rcases hrec.2 r hr with hin | hq
                · rcases List.mem_append.mp hin with hin2 | hin2
                  · exact Or.inl hin2
                  · refine Or.inr ?_
                    have hre : r = mkCatchRec item facility dateDash i st c mn mx := by
                      simpa using hin2
                    subst hre
                    refine ⟨i, st, rfl, hn, ?_, rfl, rfl, rfl, rfl, rfl, ?_, ?_, ?_⟩
                    · simpa [List.isEmpty_iff] using hse
                    · simpa [mkCatchRec] using hc
                    · simpa [mkCatchRec] using hmn
                    · simpa [mkCatchRec] using hmx
                · exact Or.inr hq

/-- C5 (amended): when no numeric field of a named slot makes the
`safe_int` conversion raise, fish-slot extraction scans slots 1..30 in
order and emits exactly one record per slot whose name is present and
non-empty, in slot order (the emitted slot sequence is exactly the
filtered index range), each record built from its own slot's fields;
slots with absent or empty names contribute nothing. -/
theorem normalize_fishes_spec (item : LastPost) (facility dateDash : Str)
    (out : List CatchRec)
    (hok : normalize_fishes item facility dateDash = Except.ok out) :
    out.map (fun r => r.slot)
        = ((List.range' 1 30).filter
            (fun i => nameTruthy (item.fishName i))).map Int.ofNat
    ∧ ∀ r ∈ out, FromSlot item facility dateDash r := by
  have h := fishSlotStep_fold item facility dateDash (List.range' 1 30) [] out hok
  refine ⟨by simpa using h.1, fun r hr => ?_⟩
  rcases h.2 r hr with hin | hq
  · exact absurd hin (List.not_mem_nil r)
  · exact hq

/-- A post whose slot 1 is named but whose count field is the string
`"inf"`. -/
def infCountPost : LastPost :=
  { goodPost with
    fishName := fun i => if i = 1 then Option.some (("サバ").data) else Option.none,
    fishCount := fun i => if i = 1 then PyVal.str (("inf").data) else PyVal.none,
    fishMinSize := fun _ => PyVal.none,
    fishMaxSize := fun _ => PyVal.none }

/-- C5, counterexample to the claim as stated: a post with slot 1 named
(so the claim demands exactly one record with slot 1) whose count string
parses to infinity makes the extraction raise `OverflowError` instead of
emitting any record. -/
theorem normalize_fishes_aborts_on_infinite_count :
    nameTruthy (infCountPost.fishName 1) = true
    ∧ normalize_fishes infCountPost (("honmoku").data) (("2024-01-01").data)
        = Except.error PyExn.overflowError :=
  ⟨rfl, rfl⟩

/-- The record list extracted from `goodPost` (only `fish3Name` set). -/
def goodFishes : List CatchRec :=
  [mkCatchRec goodPost (("honmoku").data) (("2024-01-01").data) 3 (("イワシ").data)
    (Option.some 50) (Option.some 10) (Option.some 15)]

/-- Witness for the amended C5 theorem: the post with only `fish3Name`
set yields exactly one record, with slot 3. -/
theorem normalize_fishes_spec_witness :
    (goodFishes.map (fun r => r.slot)
        = ((List.range' 1 30).filter
            (fun i => nameTruthy (goodPost.fishName i))).map Int.ofNat
      ∧ ∀ r ∈ goodFishes, FromSlot goodPost (("honmoku").data) (("2024-01-01").data) r)
    ∧ goodFishes.map (fun r => r.slot) = [(3 : Int)] :=
  ⟨normalize_fishes_spec goodPost (("honmoku").data) (("2024-01-01").data)
      goodFishes rfl, rfl⟩

/-! ## C6: pick-latest -/

/-- A candidate post updated at 2024-01-01. -/
def postEarly : LastPost :=
  { goodPost with
    updatedAt := Option.some (("2024-01-01T00:00:00Z").data)
    id := PyVal.str (("e1").data) }

/-- A candidate post updated at 2024-01-02. -/
def postLate : LastPost :=
  { goodPost with
    updatedAt := Option.some (("2024-01-02T00:00:00Z").data)
    id := PyVal.str (("l1").data) }

/-- C6: for a non-empty candidate list `pick_latest` returns exactly one
element, a member of the list whose `updatedAt` key (missing or empty
keys compare as the empty string, hence lowest) is byte-order maximal;
ties resolve deterministically since the function is pure.  The empty
list fails with the fatal no-data error.  Of the two posts updated at
2024-01-01 and 2024-01-02, the second is selected. -/
theorem pick_latest_spec :
    pick_latest ([] : List LastPost) = Except.error IngestErr.noData
    ∧ (∀ items : List LastPost, items ≠ [] →
        ∃ r, pick_latest items = Except.ok r ∧ r ∈ items
          ∧ ∀ x ∈ items, strLe (updKey x) (updKey r) = true)
    ∧ pick_latest [postEarly, postLate] = Except.ok postLate := by
  have htot : ∀ a b : LastPost,
      ((fun a b => strLe (updKey b) (updKey a)) a b
        || (fun a b => strLe (updKey b) (updKey a)) b a) = true :=
    fun a b => strLe_total (updKey b) (updKey a)
  have htr : ∀ a b c : LastPost,
      (fun a b => strLe (updKey b) (updKey a)) a b = true →
      (fun a b => strLe (updKey b) (updKey a)) b c = true →
      (fun a b => strLe (updKey b) (updKey a)) a c = true :=
    fun a b c h1 h2 => strLe_trans (updKey c) (updKey b) (updKey a) h2 h1
  refine ⟨rfl, ?_, rfl⟩
  intro items hne
  have hemp : items.isEmpty = false := by
    cases items with
    | nil => exact absurd rfl hne
    | cons a l => rfl
  have hperm : (sortDescByUpd items).Perm items :=
    pySorted_perm (fun a b => strLe (updKey b) (updKey a)) items
  cases hs : sortDescByUpd items with
  | nil =>
    exfalso
    rw [hs] at hperm
    exact hne (List.Perm.eq_nil hperm.symm)
  | cons r rest =>
    refine ⟨r, ?_, ?_, ?_⟩
    · simp [pick_latest, hemp, hs]
    · refine hperm.mem_iff.mp ?_
      rw [hs]
      exact List.mem_cons_self _ _
    · intro x hx
      have hpw : List.Pairwise
          (fun a b => (fun a b => strLe (updKey b) (updKey a)) a b = true)
          (sortDescByUpd items) :=
        pySorted_pairwise htot htr items
      rw [hs] at hpw
      rcases List.pairwise_cons.mp hpw with ⟨hr, _⟩
      have hx2 : x ∈ r :: rest := by
        rw [← hs]
        exact hperm.mem_iff.mpr hx
      rcases List.mem_cons.mp hx2 with hxr | hxrest
      · rw [hxr]; exact strLe_refl (updKey r)
      · exact hr x hxrest

/-- Witness for C6 at a concrete input: the two-candidate list. -/
theorem pick_latest_spec_witness :
    ∃ r, pick_latest [postEarly, postLate] = Except.ok r
      ∧ r ∈ [postEarly, postLate]
      ∧ ∀ x ∈ [postEarly, postLate], strLe (updKey x) (updKey r) = true :=
  pick_latest_spec.2.1 [postEarly, postLate] (by simp)

/-! ## C8: failure isolation and the aggregate status -/

theorem processSingleDate_fst_store_indep (facility dateDash : Str)
    (fo : FetchOutcome) (s1 s2 : Stores) :
    (processSingleDate facility dateDash fo s1).1
      = (processSingleDate facility dateDash fo s2).1 := by
  cases fo with
  | fail msg => rfl
  | ok u =>
    cases hpl : pick_latest u.items with
    | error e => simp [processSingleDate, hpl]
    | ok item =>
      cases hn : normalize_catch_count item facility dateDash with
      | error e => simp [processSingleDate, hpl, hn]
      | ok daily =>
        cases hf : normalize_fishes item facility dateDash with
        | error e => simp [processSingleDate, hpl, hn, hf]
        | ok catches => simp [processSingleDate, hpl, hn, hf]

/-- The outcome of a date's unit, which does not depend on the stores. -/
def dateOutcome (facility dateDash : Str) (fo : FetchOutcome) :
    Except IngestErr DateSummary :=
  (processSingleDate facility dateDash fo emptyStores).1

theorem processSingleDate_ok_date (facility dateDash : Str) (fo : FetchOutcome)
    (s : Stores) (r : DateSummary) :
    (processSingleDate facility dateDash fo s).1 = Except.ok r →
      r.date = dateDash := by
  intro h
  cases fo with
  | fail msg => exact Except.noConfusion h
  | ok u =>
    cases hpl : pick_latest u.items with
    | error e => simp [processSingleDate, hpl] at h
    | ok item =>
      cases hn : normalize_catch_count item facility dateDash with
      | error e => simp [processSingleDate, hpl, hn] at h
      | ok daily =>
        cases hf : normalize_fishes item facility dateDash with
        | error e => simp [processSingleDate, hpl, hn, hf] at h
        | ok catches =>
          simp [processSingleDate, hpl, hn, hf] at h
          rw [← h]

/-- The successful-date entry appended by the loop, as a function of the
date alone. -/
def okEntry (facility : Str) (fetch : Str → FetchOutcome) (d : Str) :
    Option DateSummary :=
  match dateOutcome facility d (fetch d) with
  | Except.ok r => Option.some r
  | Except.error _ => Option.none

/-- The error entry appended by the loop, as a function of the date
alone. -/
def errEntry (facility : Str) (fetch : Str → FetchOutcome) (d : Str) :
    Option (Str × Str) :=
  match dateOutcome facility d (fetch d) with
  | Except.ok _ => Option.none
  | Except.error e => Option.some (d, errStr e)

theorem runLoop_fst (facility : Str) (fetch : Str → FetchOutcome) :
    ∀ (dates : List Str) (res : List DateSummary) (errs : List (Str × Str))
      (s : Stores),
      (dates.foldl (dateStep facility fetch) ((res, errs), s)).1
        = (res ++ dates.filterMap (okEntry facility fetch),
           errs ++ dates.filterMap (errEntry facility fetch)) := by
  intro dates
  induction dates with
  | nil => intro res errs s; simp
  | cons d ds ih =>
    intro res errs s
    rw [List.foldl_cons]
    rcases hp : processSingleDate facility d (fetch d) s with ⟨o, st1⟩
    have hout : dateOutcome facility d (fetch d) = o := by
      rw [dateOutcome, processSingleDate_fst_store_indep facility d (fetch d)
        emptyStores s, hp]
    cases o with
    | ok r =>
      have hstep : dateStep facility fetch ((res, errs), s) d
          = ((res ++ [r], errs), st1) := by
        simp [dateStep, hp]
      rw [hstep, ih]
      simp [okEntry, errEntry, hout]
    | error e =>
      have hstep : dateStep facility fetch ((res, errs), s) d
          = ((res, errs ++ [(d, errStr e)]), st1) := by
        simp [dateStep, hp]
      rw [hstep, ih]
      simp [okEntry, errEntry, hout]

theorem errEntry_eq_none_iff (facility : Str) (fetch : Str → FetchOutcome) (d : Str) :
    errEntry facility fetch d = Option.none
      ↔ (dateOutcome facility d (fetch d)).isOk = true := by
  cases h : dateOutcome facility d (fetch d) <;>
    simp [errEntry, h, Except.isOk, Except.toBool]

theorem filterMap_ok_map_date (facility : Str) (fetch : Str → FetchOutcome) :
    ∀ dates : List Str,
      (dates.filterMap (okEntry facility fetch)).map (fun r => r.date)
        = dates.filter (fun d => (dateOutcome facility d (fetch d)).isOk) := by
  intro dates
  induction dates with
  | nil => rfl
  | cons d ds ih =>
    cases ho : dateOutcome facility d (fetch d) with
    | ok r =>
      have hd : r.date = d :=
        processSingleDate_ok_date facility d (fetch d) emptyStores r ho
      simp [okEntry, ho, Except.isOk, Except.toBool, List.filter_cons, ih, hd]
    | error e =>
      simp [okEntry, ho, Except.isOk, Except.toBool, List.filter_cons, ih]

/-- C8 (amended): each date's failure is caught and recorded as a
`(date, description)` pair and processing continues with every later
date — the successful dates are exactly the dates whose unit succeeds, in
order, and the error list collects exactly the failing dates with their
descriptions.  The overall status is `"partial"` exactly when at least
one date failed (even when every date failed), and `"ok"` exactly when
none did. -/
theorem lambda_handler_partial_spec (facility : Str) (fetch : Str → FetchOutcome)
    (dates : List Str) (s : Stores) :
    ((lambda_handler_dates facility fetch dates s).1.processed_dates
        = dates.filter (fun d => (dateOutcome facility d (fetch d)).isOk))
    ∧ ((lambda_handler_dates facility fetch dates s).1.errors
        = (if dates.filterMap (errEntry facility fetch) = [] then Option.none
           else Option.some (dates.filterMap (errEntry facility fetch))))
    ∧ ((lambda_handler_dates facility fetch dates s).1.total_dates = dates.length)
    ∧ ((lambda_handler_dates facility fetch dates s).1.status = ("partial").data
        ↔ ∃ d ∈ dates, ¬ (dateOutcome facility d (fetch d)).isOk = true)
    ∧ ((lambda_handler_dates facility fetch dates s).1.status = ("ok").data
        ↔ ∀ d ∈ dates, (dateOutcome facility d (fetch d)).isOk = true) := by
  have h1 : (runLoop facility fetch dates s).1
      = (dates.filterMap (okEntry facility fetch),
         dates.filterMap (errEntry facility fetch)) := by
    have h0 := runLoop_fst facility fetch dates [] [] s
    simpa [runLoop] using h0
  have hall : dates.filterMap (errEntry facility fetch) = []
      ↔ ∀ d ∈ dates, (dateOutcome facility d (fetch d)).isOk = true := by
    rw [List.filterMap_eq_nil_iff]
    constructor
    · intro h d hd; exact (errEntry_eq_none_iff facility fetch d).mp (h d hd)
    · intro h d hd; exact (errEntry_eq_none_iff facility fetch d).mpr (h d hd)
  have hproc0 : (lambda_handler_dates facility fetch dates s).1.processed_dates
      = (runLoop facility fetch dates s).1.1.map (fun x => x.date) := rfl
  have herr0 : (lambda_handler_dates facility fetch dates s).1.errors
      = (if (runLoop facility fetch dates s).1.2.isEmpty then Option.none
         else Option.some ((runLoop facility fetch dates s).1.2)) := rfl
  have hstat0 : (lambda_handler_dates facility fetch dates s).1.status
      = (if (runLoop facility fetch dates s).1.2.isEmpty then ("ok").data
         else ("partial").data) := rfl
  have hstat : (lambda_handler_dates facility fetch dates s).1.status
      = (if dates.filterMap (errEntry facility fetch) = [] then ("ok").data
         else ("partial").data) := by
    rw [hstat0, h1]
    cases hfm : dates.filterMap (errEntry facility fetch) with
    | nil => rfl
    | cons a t => rfl
  refine ⟨?_, ?_, rfl, ?_, ?_⟩
  · rw [hproc0, h1]
    exact filterMap_ok_map_date facility fetch dates
  · rw [herr0, h1]
    cases hfm : dates.filterMap (errEntry facility fetch) with
    | nil => rfl
    | cons a t => rfl
  · rw [hstat]
    by_cases hfm : dates.filterMap (errEntry facility fetch) = []
    · rw [if_pos hfm]
      constructor
      · intro hok; exact absurd hok (by decide)
      · rintro ⟨d, hd, hno⟩
        exact absurd (hall.mp hfm d hd) hno
    · rw [if_neg hfm]
      constructor
      · intro _
        by_contra hno
        push_neg at hno
        exact hfm (hall.mpr hno)
      · intro _; rfl
  · rw [hstat]
    by_cases hfm : dates.filterMap (errEntry facility fetch) = []
    · rw [if_pos hfm]
      constructor
      · intro _; exact hall.mp hfm
      · intro _; rfl
    · rw [if_neg hfm]
      constructor
      · intro hok; exact absurd hok (by decide)
      · intro h; exact absurd (hall.mpr h) hfm

/-- A fetch collaborator for which every date's post is invalid. -/
def failFetch : Str → FetchOutcome := fun _ => FetchOutcome.ok badUpstream

/-- C8, counterexample to the claim as stated: a run whose every date
fails still reports status `"partial"` — with a single date that fails
validation, no date succeeded (so "some but not all dates failed" is
false), yet the status is `"partial"`. -/
theorem lambda_handler_all_failed_still_partial :
    (lambda_handler_dates (("honmoku").data) failFetch [("2024-01-01").data]
        emptyStores).1.status = ("partial").data
    ∧ (lambda_handler_dates (("honmoku").data) failFetch [("2024-01-01").data]
        emptyStores).1.processed_dates = []
    ∧ (lambda_handler_dates (("honmoku").data) failFetch [("2024-01-01").data]
        emptyStores).1.total_dates = 1 :=
  ⟨rfl, rfl, rfl⟩

/-- A fetch collaborator for which 2024-01-02 delivers an invalid post
and every other date a valid one. -/
def exampleFetch : Str → FetchOutcome :=
  fun d =>
    if d = ("2024-01-02").data then FetchOutcome.ok badUpstream
    else FetchOutcome.ok goodUpstream

/-- The three-day range 2024-01-01 .. 2024-01-03. -/
def exDates : List Str :=
  [("2024-01-01").data, ("2024-01-02").data, ("2024-01-03").data]

/-- Witness for the amended C8 theorem at the spec's range example: for
the run over 2024-01-01..03 where only day 2 fails validation, the
status is `"partial"`, the successful dates are days 1 and 3, and the
single error entry names day 2. -/
theorem lambda_handler_partial_spec_witness :
    ((lambda_handler_dates (("honmoku").data) exampleFetch exDates
        emptyStores).1.processed_dates
      = exDates.filter
          (fun d => (dateOutcome (("honmoku").data) d (exampleFetch d)).isOk))
    ∧ (lambda_handler_dates (("honmoku").data) exampleFetch exDates
        emptyStores).1.processed_dates
      = [("2024-01-01").data, ("2024-01-03").data]
    ∧ ((lambda_handler_dates (("honmoku").data) exampleFetch exDates
        emptyStores).1.errors.getD []).map Prod.fst
      = [("2024-01-02").data]
    ∧ (lambda_handler_dates (("honmoku").data) exampleFetch exDates
        emptyStores).1.status = ("partial").data :=
  ⟨(lambda_handler_partial_spec (("honmoku").data) exampleFetch exDates
      emptyStores).1, rfl, rfl, rfl⟩

/-! ## C10: the daily point lookup -/

mutual

/-- No `Decimal` occurs in the value (recursively). -/
def decFreeV : DVal → Bool
  | DVal.dec _ _ => false
  | DVal.dict m => decFreeA m
  | DVal.list l => decFreeL l
  | DVal.null => true
  | DVal.s _ => true
  | DVal.int _ => true
  | DVal.float _ _ => true
  | DVal.bool _ => true

/-- No `Decimal` occurs in the list. -/
def decFreeL : List DVal → Bool
  | [] => true
  | v :: vs => decFreeV v && decFreeL vs

/-- No `Decimal` occurs in the dict. -/
def decFreeA : List (Str × DVal) → Bool
  | [] => true
  | kv :: m => decFreeV kv.2 && decFreeA m

end

mutual

theorem convDec_decFree : ∀ v : DVal, decFreeV v = true → convDec v = v
  | DVal.null, _ => rfl
  | DVal.s _, _ => rfl
  | DVal.int _, _ => rfl
  | DVal.float _ _, _ => rfl
  | DVal.bool _, _ => rfl
  | DVal.dec n sc, h => by simp [decFreeV] at h
  | DVal.dict m, h => by
    simp only [convDec]
    rw [convDecA_decFree m (by simpa [decFreeV] using h)]
  | DVal.list l, h => by
    simp only [convDec]
    rw [convDecL_decFree l (by simpa [decFreeV] using h)]

theorem convDecL_decFree : ∀ l : List DVal, decFreeL l = true → convDecL l = l
  | [], _ => rfl
  | v :: vs, h => by
    have h2 : decFreeV v = true ∧ decFreeL vs = true := by
      simpa [decFreeL, Bool.and_eq_true] using h
    simp only [convDecL]
    rw [convDec_decFree v h2.1, convDecL_decFree vs h2.2]

theorem convDecA_decFree : ∀ m : List (Str × DVal), decFreeA m = true → convDecA m = m
  | [], _ => rfl
  | (k, v) :: m, h => by
    have h2 : decFreeV v = true ∧ decFreeA m = true := by
      simpa [decFreeA, Bool.and_eq_true] using h
    simp only [convDecA]
    rw [convDec_decFree v h2.1, convDecA_decFree m h2.2]

end

theorem aget_convDecA : ∀ (m : List (Str × DVal)) (k : Str),
    aget (convDecA m) k = (aget m k).map convDec := by
  intro m
  induction m with
  | nil => intro k; rfl
  | cons kv m ih =>
    intro k
    rcases kv with ⟨k0, v⟩
    by_cases h : k0 = k
    · simp [aget, convDecA, List.find?, h]
    · simp only [convDecA, aget, List.find?]
      have hd : (decide (k0 = k)) = false := by simpa using h
      simp only [hd]
      exact ih k

theorem aget_eraseKey_self : ∀ (m : Item) (k : Str),
    aget (eraseKey k m) k = Option.none := by
  intro m
  induction m with
  | nil => intro k; rfl
  | cons kv m ih =>
    intro k
    by_cases h : kv.1 = k
    · simp only [eraseKey, List.filter_cons, h, decide_True, Bool.not_true,
        Bool.false_eq_true, if_false]
      exact ih k
    · have hd : (decide (kv.1 = k)) = false := by simpa using h
      simp only [eraseKey, List.filter_cons, hd, Bool.not_false, if_pos]
      simp only [aget, List.find?, hd]
      exact ih k

theorem aget_eraseKey_ne : ∀ (m : Item) (k k0 : Str), k ≠ k0 →
    aget (eraseKey k0 m) k = aget m k := by
  intro m
  induction m with
  | nil => intro k k0 _; rfl
  | cons kv m ih =>
    intro k k0 hne
    by_cases h : kv.1 = k0
    · have he : eraseKey k0 (kv :: m) = eraseKey k0 m := by
        simp [eraseKey, List.filter_cons, h]
      have hd : (decide (kv.1 = k)) = false := by
        simp only [decide_eq_false_iff_not]
        intro hekk
        exact hne (by rw [← hekk, h])
      rw [he, ih k k0 hne]
      simp [aget, List.find?, hd]
    · have hd : (decide (kv.1 = k0)) = false := by simpa using h
      have he2 : eraseKey k0 (kv :: m) = kv :: eraseKey k0 m := by
        simp [eraseKey, List.filter_cons, hd]
      rw [he2]
      by_cases h2 : kv.1 = k
      · simp [aget, List.find?, h2]
      · have hd2 : (decide (kv.1 = k)) = false := by simpa using h2
        simp only [aget, List.find?, hd2]
        exact ih k k0 hne

/-- C10: the daily point lookup performs no store mutation; when no
record exists at the key it returns the not-found response; when a
record is found, the response body is exactly the stored record with the
`PK` and `SK` attributes removed and every `Decimal` converted — to an
integer when it has no fractional part and to a float otherwise,
recursively through nested dicts and lists — while every other attribute
is looked up unchanged (up to that conversion, which is the identity on
decimal-free values). -/
theorem handle_day_spec (daily : Str × Str → Option Item) (facility date : Str) :
    ((handle_day daily facility date).2 = daily)
    ∧ (daily (("FACILITY#").data ++ pyStrip facility, ("DATE#").data ++ date)
          = Option.none →
        (handle_day daily facility date).1 = DayResp.notFound)
    ∧ (∀ item,
        daily (("FACILITY#").data ++ pyStrip facility, ("DATE#").data ++ date)
            = Option.some item →
        item ≠ [] →
        (handle_day daily facility date).1
            = DayResp.found (convDecA (eraseKey (("SK").data)
                (eraseKey (("PK").data) item)))
          ∧ aget (convDecA (eraseKey (("SK").data) (eraseKey (("PK").data) item)))
              (("PK").data) = Option.none
          ∧ aget (convDecA (eraseKey (("SK").data) (eraseKey (("PK").data) item)))
              (("SK").data) = Option.none
          ∧ (∀ k, k ≠ ("PK").data → k ≠ ("SK").data →
              aget (convDecA (eraseKey (("SK").data) (eraseKey (("PK").data) item))) k
                = (aget item k).map convDec))
    ∧ (∀ (n : Int) (sc : Nat), n % (10 : Int) ^ sc = 0 →
        convDec (DVal.dec n sc) = DVal.int (decTrunc n sc))
    ∧ (∀ (n : Int) (sc : Nat), ¬ n % (10 : Int) ^ sc = 0 →
        convDec (DVal.dec n sc) = DVal.float n sc)
    ∧ (∀ v : DVal, decFreeV v = true → convDec v = v) := by
  refine ⟨?_, ?_, ?_, ?_, ?_, convDec_decFree⟩
  · simp only [handle_day]
    cases daily (("FACILITY#").data ++ pyStrip facility, ("DATE#").data ++ date) with
    | none => rfl
    | some item =>
      by_cases h : item.isEmpty
      · simp [h]
      · simp [h]
  · intro h
    simp only [handle_day]
    rw [h]
  · intro item hsome hne
    have hemp : item.isEmpty = false := by
      cases item with
      | nil => exact absurd rfl hne
      | cons a t => rfl
    refine ⟨?_, ?_, ?_, ?_⟩
    · simp only [handle_day]
      rw [hsome]
      simp [hemp]
    · rw [aget_convDecA]
      rw [aget_eraseKey_ne _ _ _ (by decide), aget_eraseKey_self]
      rfl
    · rw [aget_convDecA, aget_eraseKey_self]
      rfl
    · intro k hk1 hk2
      rw [aget_convDecA, aget_eraseKey_ne _ _ _ hk2, aget_eraseKey_ne _ _ _ hk1]
  · intro n sc h
    simp only [convDec, if_pos h]
  · intro n sc h
    simp only [convDec, if_neg h]

/-- A stored daily record with an integral decimal (`visitors`), a
fractional decimal (`waterTemp`), a plain string and a nested dict. -/
def dayItem : Item :=
  [(("PK").data, DVal.s (("FACILITY#honmoku").data)),
   (("SK").data, DVal.s (("DATE#2024-01-05").data)),
   (("visitors").data, DVal.dec 120 0),
   (("waterTemp").data, DVal.dec 185 1),
   (("weather").data, DVal.s (("晴れ").data)),
   (("rawKeys").data, DVal.dict
     [(("catch_count").data, DVal.s (("raw/honmoku/2024-01-05/catch_count.json").data))])]

/-- A daily table holding exactly `dayItem`. -/
def dayStore : Str × Str → Option Item :=
  upsert ((("FACILITY#honmoku").data), (("DATE#2024-01-05").data)) dayItem
    (fun _ => Option.none)

/-- Witness for C10 at a concrete store: the stored record is found, and
the response facts hold for it. -/
theorem handle_day_spec_witness :
    (handle_day dayStore (("honmoku").data) (("2024-01-05").data)).1
        = DayResp.found (convDecA (eraseKey (("SK").data)
            (eraseKey (("PK").data) dayItem)))
      ∧ aget (convDecA (eraseKey (("SK").data) (eraseKey (("PK").data) dayItem)))
          (("PK").data) = Option.none
      ∧ aget (convDecA (eraseKey (("SK").data) (eraseKey (("PK").data) dayItem)))
          (("SK").data) = Option.none
      ∧ (∀ k, k ≠ ("PK").data → k ≠ ("SK").data →
          aget (convDecA (eraseKey (("SK").data) (eraseKey (("PK").data) dayItem))) k
            = (aget dayItem k).map convDec) :=
  (handle_day_spec dayStore (("honmoku").data) (("2024-01-05").data)).2.2.1 dayItem
    rfl (List.cons_ne_nil _ _)

/-! ## C3: the series lookup -/

/-- The sort-key shape of every record the ingestion writes into the
catch table: a `DATE#` prefix, a ten-character `#`-free date, then
further `#`-separated segments. -/
def WellFormedSK (it : Item) : Prop :=
  ∃ d rest : Str,
    agetStrD it (("SK").data) = ("DATE#").data ++ d ++ '#' :: rest
    ∧ d.length = 10 ∧ '#' ∉ d

/-- The date window actually enforced by `handle_series`: `from` is
inclusive; with both bounds given the `to` end is strict for stored
records (their sort keys extend past the bare `DATE#to` bound); a `to`
given without a `from` is ignored entirely. -/
def inWindow (dateFrom dateTo : Option Str) (d : Str) : Bool :=
  match dateFrom, dateTo with
  | Option.some f, Option.some t => strLe f d && strLt d t
  | Option.some f, Option.none => strLe f d
  | Option.none, _ => true

theorem extract_date_sk_wf (d rest : Str) (hd : '#' ∉ d) :
    extract_date_sk (("DATE#").data ++ d ++ '#' :: rest) = d := by
  have h1 : ("DATE#").data ++ d ++ '#' :: rest
      = ("DATE").data ++ '#' :: (d ++ '#' :: rest) := by
    simp
  rw [h1]
  simp only [extract_date_sk]
  rw [splitSharp_append (("DATE").data) (d ++ '#' :: rest) (by decide),
    splitSharp_append d rest hd]

theorem skCondHolds_wf (facility fish : Str) (dateFrom dateTo : Option Str)
    (d rest : Str) (hd10 : d.length = 10)
    (hf : ∀ f, dateFrom = Option.some f → f.length = 10)
    (ht : ∀ t, dateTo = Option.some t → t.length = 10) :
    skCondHolds (seriesKeyCond facility fish dateFrom dateTo).2
        (("DATE#").data ++ d ++ '#' :: rest)
      = inWindow dateFrom dateTo d := by
  have hassoc : ("DATE#").data ++ d ++ '#' :: rest
      = ("DATE#").data ++ (d ++ '#' :: rest) := by
    simp
  rcases dateFrom with _ | f
  · rcases dateTo with _ | t <;> rfl
  · rcases dateTo with _ | t
    · simp only [seriesKeyCond, skCondHolds, inWindow]
      rw [hassoc, strLe_append_cancel]
      exact strLe_prefix_long f d ('#' :: rest) (by rw [hf f rfl, hd10])
    · simp only [seriesKeyCond, skCondHolds, inWindow]
      rw [hassoc, strLe_append_cancel, strLe_append_cancel]
      rw [strLe_prefix_long f d ('#' :: rest) (by rw [hf f rfl, hd10])]
      rw [strLe_extend_lt d t ('#' :: rest) (by rw [hd10, ht t rfl])
        (List.cons_ne_nil _ _)]

/-- C3 (amended): over a catch table of well-formed records (ten-character
`#`-free date segment, as every record written by the key codec has) and
a store that delivers, across all continuation pages, exactly the items
matching the key condition, the series lookup returns exactly the records
of the partition whose extracted date `d` satisfies the enforced window —
`from ≤ d` when `from` is given, and additionally `d < to` when both are
given (the `to` end excludes records dated `to`, and a `to` without a
`from` is ignored) — projected to the response shape with decimals
converted, sorted ascending by the date extracted from each record's own
sort key. -/
theorem handle_series_spec (table : List Item) (pages : List (List Item))
    (facility fish : Str) (dateFrom dateTo : Option Str)
    (hshape : ∀ it ∈ table, WellFormedSK it)
    (hf : ∀ f, dateFrom = Option.some f → f.length = 10)
    (ht : ∀ t, dateTo = Option.some t → t.length = 10)
    (hpages : pages.flatten.Perm
      (ddbQueryCatch table (seriesKeyCond facility fish dateFrom dateTo).1
        (seriesKeyCond facility fish dateFrom dateTo).2)) :
    (handle_series_items pages).Perm
        ((table.filter (fun it =>
            pkAttrEq it (seriesKeyCond facility fish dateFrom dateTo).1
              && inWindow dateFrom dateTo (extract_date it))).map
          (fun it => convOut (outOf it)))
    ∧ List.Pairwise (fun a b => strLe a b = true)
        ((handle_series_items pages).map (fun r => r.date)) := by
  have htot : ∀ a b : Item,
      ((fun a b => strLe (extract_date a) (extract_date b)) a b
        || (fun a b => strLe (extract_date a) (extract_date b)) b a) = true :=
    fun a b => strLe_total (extract_date a) (extract_date b)
  have htr : ∀ a b c : Item,
      (fun a b => strLe (extract_date a) (extract_date b)) a b = true →
      (fun a b => strLe (extract_date a) (extract_date b)) b c = true →
      (fun a b => strLe (extract_date a) (extract_date b)) a c = true :=
    fun a b c h1 h2 =>
      strLe_trans (extract_date a) (extract_date b) (extract_date c) h1 h2
  have hcongr : ddbQueryCatch table
      (seriesKeyCond facility fish dateFrom dateTo).1
      (seriesKeyCond facility fish dateFrom dateTo).2
      = table.filter (fun it =>
          pkAttrEq it (seriesKeyCond facility fish dateFrom dateTo).1
            && inWindow dateFrom dateTo (extract_date it)) := by
    rw [ddbQueryCatch]
    apply List.filter_congr
    intro it hit
    rcases hshape it hit with ⟨d, rest, hsk, hd10, hdns⟩
    have hcontra : agetStrD it (("SK").data) ≠ [] := by
      rw [hsk]; simp
    have hsk2 : skAttrHolds it (seriesKeyCond facility fish dateFrom dateTo).2
        = inWindow dateFrom dateTo (extract_date it) := by
      rcases haget : aget it (("SK").data) with _ | v
      · exact absurd (by simp [agetStrD, haget]) hcontra
      · cases v
        case s w =>
          have hw : w = ("DATE#").data ++ d ++ '#' :: rest := by
            simpa [agetStrD, haget] using hsk
          have hext : extract_date it = d := by
            simp only [extract_date]
            rw [hsk]
            exact extract_date_sk_wf d rest hdns
          simp only [skAttrHolds, haget]
          rw [hw, skCondHolds_wf facility fish dateFrom dateTo d rest hd10 hf ht,
            hext]
        all_goals exact absurd (by simp [agetStrD, haget]) hcontra
    rw [hsk2]
  have hpages2 : pages.flatten.Perm
      (table.filter (fun it =>
        pkAttrEq it (seriesKeyCond facility fish dateFrom dateTo).1
          && inWindow dateFrom dateTo (extract_date it))) := by
    rw [← hcongr]
    exact hpages
  have hsortperm : (pySorted
      (fun a b => strLe (extract_date a) (extract_date b)) pages.flatten).Perm
      (table.filter (fun it =>
        pkAttrEq it (seriesKeyCond facility fish dateFrom dateTo).1
          && inWindow dateFrom dateTo (extract_date it))) :=
    (pySorted_perm _ pages.flatten).trans hpages2
  have hunf : handle_series_items pages
      = ((pySorted (fun a b => strLe (extract_date a) (extract_date b))
          pages.flatten).map outOf).map convOut := rfl
  constructor
  · rw [hunf, List.map_map]
    exact hsortperm.map (convOut ∘ outOf)
  · have hdates : (handle_series_items pages).map (fun r => r.date)
        = (pySorted (fun a b => strLe (extract_date a) (extract_date b))
            pages.flatten).map (fun it => extract_date it) := by
      rw [hunf, List.map_map, List.map_map]
      rfl
    rw [hdates]
    exact List.Pairwise.map _ (fun a b h => h)
      (pySorted_pairwise htot htr pages.flatten)

/-- A stored catch record dated 2024-01-02 in the queried partition. -/
def cexItem : Item :=
  [(("PK").data, DVal.s (("FACILITY#honmoku#FISH#アジ").data)),
   (("SK").data, DVal.s (("DATE#2024-01-02#SLOT#01#PLACE#oki").data)),
   (("count").data, DVal.dec 5 0)]

/-- C3, counterexample to the claim as stated: with the inclusive window
from 2024-01-01 to 2024-01-02, the stored record dated 2024-01-02 — in
the partition, date inside the inclusive window — is not returned: its
sort key extends past the bare `DATE#2024-01-02` upper bound of the
`between` condition, so the store's query matches nothing and the series
result is empty.  Moreover a `to` bound given without `from` produces
the unconstrained condition (the window is ignored). -/
theorem handle_series_misses_to_date :
    (strLe (("2024-01-01").data) (extract_date cexItem)
      && strLe (extract_date cexItem) (("2024-01-02").data)) = true
    ∧ pkAttrEq cexItem
        (seriesKeyCond (("honmoku").data) (("アジ").data)
          (Option.some (("2024-01-01").data))
          (Option.some (("2024-01-02").data))).1 = true
    ∧ extract_date cexItem = ("2024-01-02").data
    ∧ ddbQueryCatch [cexItem]
        (seriesKeyCond (("honmoku").data) (("アジ").data)
          (Option.some (("2024-01-01").data))
          (Option.some (("2024-01-02").data))).1
        (seriesKeyCond (("honmoku").data) (("アジ").data)
          (Option.some (("2024-01-01").data))
          (Option.some (("2024-01-02").data))).2 = []
    ∧ handle_series_items [ddbQueryCatch [cexItem]
        (seriesKeyCond (("honmoku").data) (("アジ").data)
          (Option.some (("2024-01-01").data))
          (Option.some (("2024-01-02").data))).1
        (seriesKeyCond (("honmoku").data) (("アジ").data)
          (Option.some (("2024-01-01").data))
          (Option.some (("2024-01-02").data))).2] = []
    ∧ (seriesKeyCond (("honmoku").data) (("アジ").data) Option.none
        (Option.some (("2024-01-02").data))).2 = SkCond.all :=
  ⟨rfl, rfl, rfl, rfl, rfl, rfl⟩

/-- A record of the アジ partition dated 2024-01-03 (inside the witness
window). -/
def wIt1 : Item :=
  [(("PK").data, DVal.s (("FACILITY#honmoku#FISH#アジ").data)),
   (("SK").data, DVal.s (("DATE#2024-01-03#SLOT#01#PLACE#a").data)),
   (("count").data, DVal.dec 3 0)]

/-- A record of the アジ partition dated 2024-01-10 (outside the witness
window). -/
def wIt2 : Item :=
  [(("PK").data, DVal.s (("FACILITY#honmoku#FISH#アジ").data)),
   (("SK").data, DVal.s (("DATE#2024-01-10#SLOT#02#PLACE#b").data)),
   (("count").data, DVal.dec 7 0)]

/-- A record of a different partition. -/
def wIt3 : Item :=
  [(("PK").data, DVal.s (("FACILITY#honmoku#FISH#サバ").data)),
   (("SK").data, DVal.s (("DATE#2024-01-03#SLOT#01#PLACE#a").data)),
   (("count").data, DVal.dec 2 0)]

/-- The witness table. -/
def wTable : List Item := [wIt1, wIt2, wIt3]

/-- The witness partition key and condition: the アジ partition, window
2024-01-01 to 2024-01-05. -/
def wCond : Str × SkCond :=
  seriesKeyCond (("honmoku").data) (("アジ").data)
    (Option.some (("2024-01-01").data)) (Option.some (("2024-01-05").data))

/-- Witness for the amended C3 theorem at a concrete store: a three-record
table queried with a two-sided window, the store returning one page. -/
theorem handle_series_spec_witness :
    (handle_series_items [ddbQueryCatch wTable wCond.1 wCond.2]).Perm
        ((wTable.filter (fun it =>
            pkAttrEq it wCond.1
              && inWindow (Option.some (("2024-01-01").data))
                  (Option.some (("2024-01-05").data)) (extract_date it))).map
          (fun it => convOut (outOf it)))
    ∧ List.Pairwise (fun a b => strLe a b = true)
        ((handle_series_items [ddbQueryCatch wTable wCond.1 wCond.2]).map
          (fun r => r.date)) := by
  refine handle_series_spec wTable [ddbQueryCatch wTable wCond.1 wCond.2]
    (("honmoku").data) (("アジ").data)
    (Option.some (("2024-01-01").data)) (Option.some (("2024-01-05").data))
    ?_ ?_ ?_ ?_
  · intro it hit
    fin_cases hit
    · exact ⟨(("2024-01-03").data), (("SLOT#01#PLACE#a").data), rfl, rfl, by decide⟩
    · exact ⟨(("2024-01-10").data), (("SLOT#02#PLACE#b").data), rfl, rfl, by decide⟩
    · exact ⟨(("2024-01-03").data), (("SLOT#01#PLACE#a").data), rfl, rfl, by decide⟩
  · intro f h
    cases h
    rfl
  · intro t h
    cases h
    rfl
  · show (List.flatten [ddbQueryCatch wTable wCond.1 wCond.2]).Perm
        (ddbQueryCatch wTable wCond.1 wCond.2)
    have h : List.flatten [ddbQueryCatch wTable wCond.1 wCond.2]
        = ddbQueryCatch wTable wCond.1 wCond.2 := by simp
    rw [h]
